import Mathlib

/-!
# The s3x metadata ledger: multipart uploads and bucket objects

A shallow embedding of `cmd/gateway/s3x/gateway-s3x-ledger-multipart.go`, of the
object operations of `cmd/gateway/s3x/gateway-s3x-ledger-store.go`, and of the replay of
buffered log entries in `cmd/consolelogger.go`.

Conventions of the embedding

* A Go `error` is an `Option Err`; `none` is the nil error.
* A Go map field that may be nil is an `Option` of a finite function; reading a nil map
  finds nothing, deleting from it does nothing, assigning into it panics.
* The two registry maps of the ledger are allocated maps, hence plain functions.
* A Go pointer to a record that lives in a registry map is embedded by writing the
  modified record back into the registry at the place where the Go code mutates it.
* The embedding is sequential.  Locks are explicit state: the list of locks currently
  held.  Acquiring puts a lock on the list, releasing takes one occurrence off.
  Waiting for a lock that is held belongs to the concurrent semantics and is not
  part of this model.
* The durable store and the content backend are state components with failure
  oracles, so that every error path of the code can be taken.
* Where the order of lock and store calls matters, an operation also has its list of
  events in program order.
-/

set_option linter.unusedVariables false

namespace S3x

/-! ## Values -/

/-- Error values: the two ledger errors, the not-found value of the datastore,
failures of the durable store or of the content backend, and failures of the
record encoding. -/
inductive Err where
  | ErrLedgerBucketDoesNotExist
  | ErrInvalidUploadID
  | ErrNotFound
  | backend (msg : String)
  | codec (msg : String)
  deriving DecidableEq, Repr

/-- Target object of an upload (protobuf message; a nil pointer is `none`). -/
structure ObjectInfo where
  Bucket : String
  Name : String
  deriving DecidableEq, Repr

/-- Nil-safe getter `info.GetBucket()` of the generated message type. -/
def ObjectInfo.GetBucket (info : Option ObjectInfo) : String :=
  match info with
  | none => ""
  | some i => i.Bucket

/-- One recorded part of a multipart upload. -/
structure ObjectPartInfo where
  Number : Int
  DataHash : String
  deriving DecidableEq, Repr

/-- Record of an upload in flight. `ObjectParts` is a Go map and may be nil. -/
structure MultipartUpload where
  ObjectInfo : Option ObjectInfo
  Id : String
  ObjectParts : Option (Int → Option ObjectPartInfo)

/-- Reading `m.ObjectParts[n]`: a nil map has no entries. -/
def MultipartUpload.part (m : MultipartUpload) (n : Int) : Option ObjectPartInfo :=
  match m.ObjectParts with
  | none => none
  | some parts => parts n

/-- Durable bucket record: name and the object-name to content-hash map (may be nil). -/
structure Bucket where
  Name : String
  Objects : Option (String → Option String)

/-- Reading `b.Objects[name]`: a nil map has no entries. -/
def Bucket.object (b : Bucket) (name : String) : Option String :=
  match b.Objects with
  | none => none
  | some objs => objs name

/-- Entry of the bucket registry: the bucket record and whether its object map has
been synchronised with the content backend. -/
structure LedgerBucketEntry where
  Bucket : Bucket
  loaded : Bool

/-! ## Collaborators -/

/-- Keys of the durable store: `dsPartKey.ChildString(id)` and the bucket keys. -/
inductive Key where
  | part (uploadID : String)
  | bucket (name : String)
  deriving DecidableEq, Repr

/-- The durable key-value store (an external collaborator, the `go-datastore` library
that the sources import): `Get` answers the value or `ErrNotFound`, `Put` writes, and
`Delete` is idempotent, so deleting a key that is not there is no error. Each operation
has a failure oracle; a failing operation reports the failure and leaves the contents
alone. -/
structure Datastore (β : Type) where
  data : Key → Option β
  getFault : Key → Option String
  putFault : Key → Option String
  delFault : Key → Option String

/-- The `Get(key) -> (bytes, error|NotFound)` call of the store. -/
def Datastore.Get {β : Type} (d : Datastore β) (k : Key) : Except Err β :=
  match d.getFault k with
  | some msg => Except.error (Err.backend msg)
  | none =>
    match d.data k with
    | none => Except.error Err.ErrNotFound
    | some v => Except.ok v

/-- The `Put(key, bytes) -> error` call of the store. -/
def Datastore.Put {β : Type} (d : Datastore β) (k : Key) (v : β) : Option Err × Datastore β :=
  match d.putFault k with
  | some msg => (some (Err.backend msg), d)
  | none => (none, { d with data := Function.update d.data k (some v) })

/-- The `Delete(key) -> error` call of the store: the key is gone afterwards, and a key
that was not there is deleted without an error. -/
def Datastore.Delete {β : Type} (d : Datastore β) (k : Key) : Option Err × Datastore β :=
  match d.delFault k with
  | some msg => (some (Err.backend msg), d)
  | none => (none, { d with data := Function.update d.data k none })

/-- The generated `Marshal` and `Unmarshal` of the upload record, over the byte type `β`.
The generated code is not among the sources; the operations take it as a parameter. -/
structure Codec (β : Type) where
  Marshal : MultipartUpload → Except Err β
  Unmarshal : β → Except Err MultipartUpload

/-- The content backend as the ledger sees it: what it answers when the object set of
a bucket is fetched, the bucket records saved to it, and a failure oracle for saving. -/
structure Backend where
  resolve : String → Except Err (Option (String → Option String))
  saved : String → Option Bucket
  saveFault : String → Option String

/-! ## Locks -/

/-- The locks of the ledger: the map-structural lock of the upload registry
(`pmapLocker`), the per-bucket lock (`locker`) and the per-upload lock (`plocker`),
the latter two in read or write mode. -/
inductive Lock where
  | pmap
  | bucketRead (bucket : String)
  | bucketWrite (bucket : String)
  | partRead (uploadID : String)
  | partWrite (uploadID : String)
  deriving DecidableEq, Repr

/-! ## The ledger store -/

/-- State of `ledgerStore`: the two registries of `ls.l`, the durable store `ls.ds`,
the content backend `ls.dag`, and the locks that are held. -/
structure LedgerStore (β : Type) where
  Buckets : String → Option LedgerBucketEntry
  MultipartUploads : String → Option MultipartUpload
  ds : Datastore β
  dag : Backend
  held : List Lock

/-- Acquire a lock. -/
def LedgerStore.acquire {β : Type} (ls : LedgerStore β) (l : Lock) : LedgerStore β :=
  { ls with held := l :: ls.held }

/-- Release a lock: one occurrence leaves the held list. -/
def LedgerStore.release {β : Type} (ls : LedgerStore β) (l : Lock) : LedgerStore β :=
  { ls with held := ls.held.erase l }

/-- Result of a call that may panic. -/
inductive Outcome where
  | ret (err : Option Err)
  | panic (msg : String)
  deriving DecidableEq, Repr

/-! ## Bucket helpers -/

/-- Modelled from the spec: `getBucket` is missing from the sources. A bucket exists
when it is in the bucket registry; the lookup yields the entry, or nil with no error
when the bucket is absent. -/
def getBucket {β : Type} (ls : LedgerStore β) (bucket : String) :
    Option LedgerBucketEntry × Option Err :=
  (ls.Buckets bucket, none)

/-- Modelled from the spec: `assertBucketExits` is missing from the sources. It answers
the bucket-not-found error unless the bucket exists; being internal it takes no lock. -/
def assertBucketExits {β : Type} (ls : LedgerStore β) (bucket : String) : Option Err :=
  match getBucket ls bucket with
  | (_, some err) => some err
  | (none, none) => some Err.ErrLedgerBucketDoesNotExist
  | (some _, none) => none

/-- Modelled from the spec: `AssertBucketExits` is missing from the sources. The public
form of the check holds the read lock of the bucket while it looks. -/
def AssertBucketExits {β : Type} (ls : LedgerStore β) (bucket : String) :
    Option Err × LedgerStore β :=
  let ls1 := ls.acquire (Lock.bucketRead bucket)
  (assertBucketExits ls1 bucket, ls1.release (Lock.bucketRead bucket))

/-- Modelled from the spec: `ensureCache` is missing from the sources. If the object map
of the entry has not been synchronised with the content backend it is fetched and
installed, once; on a loaded entry the call does nothing. A failed fetch changes nothing. -/
def LedgerBucketEntry.ensureCache (b : LedgerBucketEntry) (dag : Backend) :
    Except Err LedgerBucketEntry :=
  if b.loaded then Except.ok b
  else
    match dag.resolve b.Bucket.Name with
    | Except.error e => Except.error e
    | Except.ok objs => Except.ok { Bucket := { b.Bucket with Objects := objs }, loaded := true }

/-- Modelled from the spec: `saveBucket` is missing from the sources. It persists the
bucket record it is handed; a failed save reports the failure and persists nothing. -/
def saveBucket {β : Type} (ls : LedgerStore β) (bucket : String) (b : Bucket) :
    Option Err × LedgerStore β :=
  match ls.dag.saveFault bucket with
  | some msg => (some (Err.backend msg), ls)
  | none => (none, { ls with dag := { ls.dag with saved := Function.update ls.dag.saved bucket (some b) } })

/-! ## Multipart uploads (`gateway-s3x-ledger-multipart.go`) -/

/-- The load-on-miss lookup `getMultipartNilable`: under the map-structural lock, look
in memory; on a miss read the durable store; not found is `(nil, nil)`. -/
def getMultipartNilable {β : Type} (c : Codec β) (ls : LedgerStore β) (uploadID : String) :
    (Option MultipartUpload × Option Err) × LedgerStore β :=
  let ls1 := ls.acquire Lock.pmap
  let r : Option MultipartUpload × Option Err :=
    match ls1.MultipartUploads uploadID with
    | some mu => (some mu, none)
    | none =>
      match ls1.ds.Get (Key.part uploadID) with
      | Except.error err => if err = Err.ErrNotFound then (none, none) else (none, some err)
      | Except.ok data =>
        match c.Unmarshal data with
        | Except.error err => (none, some err)
        | Except.ok mu => (some mu, none)
  (r, ls1.release Lock.pmap)

/-- The lookup `getMultipartLoaded`: a nil record becomes `ErrInvalidUploadID`. -/
def getMultipartLoaded {β : Type} (c : Codec β) (ls : LedgerStore β) (uploadID : String) :
    (Option MultipartUpload × Option Err) × LedgerStore β :=
  match getMultipartNilable c ls uploadID with
  | ((_, some err), ls1) => ((none, some err), ls1)
  | ((none, none), ls1) => ((none, some Err.ErrInvalidUploadID), ls1)
  | ((some m, none), ls1) => ((some m, none), ls1)

/-- The helper `accertValidUploadID`. -/
def accertValidUploadID {β : Type} (c : Codec β) (ls : LedgerStore β) (uploadID : String) :
    Option Err × LedgerStore β :=
  ((getMultipartLoaded c ls uploadID).1.2, (getMultipartLoaded c ls uploadID).2)

/-- The operation `MultipartIDExists`. -/
def MultipartIDExists {β : Type} (c : Codec β) (ls : LedgerStore β) (id : String) :
    Option Err × LedgerStore β :=
  accertValidUploadID c ls id

/-- The operation `DeleteMultipartID`: under the map-structural lock delete the id from
the registry, then from the durable store; a not-found answer of the store would become
`ErrInvalidUploadID`. -/
def DeleteMultipartID {β : Type} (ls : LedgerStore β) (uploadID : String) :
    Option Err × LedgerStore β :=
  let ls1 := ls.acquire Lock.pmap
  let ls2 := { ls1 with MultipartUploads := Function.update ls1.MultipartUploads uploadID none }
  let r := ls2.ds.Delete (Key.part uploadID)
  let ls3 := { ls2 with ds := r.2 }
  if r.1 = some Err.ErrNotFound then (some Err.ErrInvalidUploadID, ls3.release Lock.pmap)
  else (r.1, ls3.release Lock.pmap)

/-- The operation `AbortMultipartUpload`. -/
def AbortMultipartUpload {β : Type} (ls : LedgerStore β) (bucket multipartID : String) :
    Option Err × LedgerStore β :=
  match AssertBucketExits ls bucket with
  | (some err, ls1) => (some err, ls1)
  | (none, ls1) => DeleteMultipartID ls1 multipartID

/-- The operation `NewMultipartUpload`. The statement `defer ls.locker.write(bucket)`
defers the call of `write` itself: the write lock of the bucket is taken when the
function returns, on every path, and the release function that `write` hands back
is dropped. -/
def NewMultipartUpload {β : Type} (c : Codec β) (ls : LedgerStore β) (multipartID : String)
    (info : Option ObjectInfo) : Option Err × LedgerStore β :=
  let bucket := ObjectInfo.GetBucket info
  let body : Option Err × LedgerStore β :=
    match assertBucketExits ls bucket with
    | some err => (some err, ls)
    | none =>
      let m : MultipartUpload := { ObjectInfo := info, Id := multipartID, ObjectParts := none }
      let ls1 := ls.acquire Lock.pmap
      let ls2 := { ls1 with MultipartUploads := Function.update ls1.MultipartUploads multipartID (some m) }
      let ls3 := ls2.release Lock.pmap
      match c.Marshal m with
      | Except.error err => (some err, ls3)
      | Except.ok data =>
        let r := ls3.ds.Put (Key.part multipartID) data
        (r.1, { ls3 with ds := r.2 })
  (body.1, body.2.acquire (Lock.bucketWrite bucket))

/-- The record `m` of `PutObjectPart` is a pointer: when the id is resident it points
into the registry, so the assignment to its part map changes the registry entry; a
record decoded from the store is a fresh object and the registry is not touched. -/
def storeThrough {β : Type} (ls : LedgerStore β) (uploadID : String) (m : MultipartUpload) :
    LedgerStore β :=
  match ls.MultipartUploads uploadID with
  | some _ => { ls with MultipartUploads := Function.update ls.MultipartUploads uploadID (some m) }
  | none => ls

/-- The operation `PutObjectPart`. The write lock of the upload id is released by a
deferred call, so it is released on every exit, a panic included. -/
def PutObjectPart {β : Type} (c : Codec β) (ls : LedgerStore β)
    (bucketName objectName partHash multipartID : String) (partNumber : Int) :
    Outcome × LedgerStore β :=
  match AssertBucketExits ls bucketName with
  | (some err, ls1) => (Outcome.ret (some err), ls1)
  | (none, ls1) =>
    let ls2 := ls1.acquire (Lock.partWrite multipartID)
    match getMultipartLoaded c ls2 multipartID with
    | ((_, some err), ls3) => (Outcome.ret (some err), ls3.release (Lock.partWrite multipartID))
    | ((none, none), ls3) =>
      (Outcome.panic "nil pointer dereference", ls3.release (Lock.partWrite multipartID))
    | ((some m, none), ls3) =>
      match m.ObjectParts with
      | none =>
        (Outcome.panic "assignment to entry in nil map", ls3.release (Lock.partWrite multipartID))
      | some parts =>
        let m1 : MultipartUpload :=
          { m with ObjectParts := some (Function.update parts partNumber
              (some { Number := partNumber, DataHash := partHash })) }
        let ls4 := storeThrough ls3 multipartID m1
        match c.Marshal m1 with
        | Except.error err => (Outcome.ret (some err), ls4.release (Lock.partWrite multipartID))
        | Except.ok data =>
          let r := ls4.ds.Put (Key.part multipartID) data
          (Outcome.ret r.1, ({ ls4 with ds := r.2 }).release (Lock.partWrite multipartID))

/-- The operation `GetObjectDetails`: the record, the lock its release function
releases, and the error. On success the read lock of the id is still held. -/
def GetObjectDetails {β : Type} (c : Codec β) (ls : LedgerStore β) (id : String) :
    (Option MultipartUpload × Option Lock × Option Err) × LedgerStore β :=
  let ls1 := ls.acquire (Lock.partRead id)
  match getMultipartLoaded c ls1 id with
  | ((_, some err), ls2) => ((none, none, some err), ls2.release (Lock.partRead id))
  | ((m, none), ls2) => ((m, some (Lock.partRead id), none), ls2)

/-! ## Bucket objects (`gateway-s3x-ledger-store.go`) -/

/-- The entry `b` of the object operations is a pointer into the bucket registry:
what a successful `ensureCache` and the map writes do to it is visible in the registry. -/
def setBucket {β : Type} (ls : LedgerStore β) (bucket : String) (b : LedgerBucketEntry) :
    LedgerStore β :=
  { ls with Buckets := Function.update ls.Buckets bucket (some b) }

/-- The operation `RemoveObject`. -/
def RemoveObject {β : Type} (ls : LedgerStore β) (bucket object : String) :
    Option Err × LedgerStore β :=
  match getBucket ls bucket with
  | (_, some err) => (some err, ls)
  | (none, none) => (some Err.ErrLedgerBucketDoesNotExist, ls)
  | (some b, none) =>
    match b.ensureCache ls.dag with
    | Except.error err => (some err, ls)
    | Except.ok b1 =>
      let objs := b1.Bucket.Objects.map (fun f => Function.update f object none)
      (none, setBucket ls bucket { b1 with Bucket := { b1.Bucket with Objects := objs } })

/-- The operation `putObject`. -/
def putObject {β : Type} (ls : LedgerStore β) (bucket object objHash : String) :
    Option Err × LedgerStore β :=
  match getBucket ls bucket with
  | (_, some err) => (some err, ls)
  | (none, none) => (some Err.ErrLedgerBucketDoesNotExist, ls)
  | (some b, none) =>
    match b.ensureCache ls.dag with
    | Except.error err => (some err, ls)
    | Except.ok b1 =>
      let objs : String → Option String :=
        match b1.Bucket.Objects with
        | none => fun _ => none
        | some f => f
      let rec1 : Bucket := { b1.Bucket with Objects := some (Function.update objs object (some objHash)) }
      saveBucket (setBucket ls bucket { b1 with Bucket := rec1 }) bucket rec1

/-! ## Concrete ledgers used to exercise the definitions -/

/-- A codec whose byte type is the record itself; it never fails. -/
def plainCodec : Codec MultipartUpload :=
  { Marshal := fun m => Except.ok m, Unmarshal := fun d => Except.ok d }

/-- A codec whose `Marshal` always fails. -/
def brokenCodec : Codec MultipartUpload :=
  { Marshal := fun _ => Except.error (Err.codec "marshal"), Unmarshal := fun d => Except.ok d }

/-- An empty store on which every call works. -/
def healthyStore : Datastore MultipartUpload :=
  { data := fun _ => none, getFault := fun _ => none, putFault := fun _ => none,
    delFault := fun _ => none }

/-- A content backend that has nothing and never fails. -/
def quietBackend : Backend :=
  { resolve := fun _ => Except.ok none, saved := fun _ => none, saveFault := fun _ => none }

/-- A ledger whose only bucket is `b1`, with no uploads and no lock held. -/
def ledgerB1 : LedgerStore MultipartUpload :=
  { Buckets := fun b => if b = "b1" then some { Bucket := { Name := "b1", Objects := none }, loaded := true } else none,
    MultipartUploads := fun _ => none,
    ds := healthyStore,
    dag := quietBackend,
    held := [] }

/-- The ledger `ledgerB1` with the upload `u1` stored and resident, on a store whose
reads time out. -/
def flakyReadLedger : LedgerStore MultipartUpload :=
  { ledgerB1 with
    MultipartUploads := fun i =>
      if i = "u1" then some { ObjectInfo := none, Id := "u1", ObjectParts := none } else none
    ds :=
      { data := fun k =>
          if k = Key.part "u1" then some { ObjectInfo := none, Id := "u1", ObjectParts := none }
          else none
        getFault := fun _ => some "timeout"
        putFault := fun _ => none
        delFault := fun _ => none } }

/-- The ledger `ledgerB1` with the upload `u1` resident with an allocated, empty part
map. -/
def ledgerU1 : LedgerStore MultipartUpload :=
  { ledgerB1 with
    MultipartUploads := fun i =>
      if i = "u1" then some { ObjectInfo := none, Id := "u1", ObjectParts := some (fun _ => none) }
      else none }

/-- The ledger `ledgerB1` after `NewMultipartUpload("u1", (b1, o1))`. -/
def ledgerAfterNew : LedgerStore MultipartUpload :=
  (NewMultipartUpload plainCodec ledgerB1 "u1" (some { Bucket := "b1", Name := "o1" })).2

/-- Two ledger states agree on everything the ledger stores: the upload registry, the
bucket registry with its object maps, the durable store and the content backend. -/
def sameData {β : Type} (a b : LedgerStore β) : Prop :=
  a.MultipartUploads = b.MultipartUploads ∧ a.Buckets = b.Buckets ∧ a.ds = b.ds ∧ a.dag = b.dag

/-- The ledger `ledgerB1` on a store whose deletions time out. -/
def flakyDeleteLedger : LedgerStore MultipartUpload :=
  { ledgerB1 with ds := { healthyStore with delFault := fun _ => some "timeout" } }

/-- The ledger `ledgerB1` on a store whose writes time out. -/
def flakyWriteLedger : LedgerStore MultipartUpload :=
  { ledgerB1 with ds := { healthyStore with putFault := fun _ => some "timeout" } }

/-- The ledger `ledgerB1` with bucket `b1` not yet synchronised and its object map nil. -/
def ledgerUnloaded : LedgerStore MultipartUpload :=
  { ledgerB1 with
    Buckets := fun b =>
      if b = "b1" then some { Bucket := { Name := "b1", Objects := none }, loaded := false }
      else none }

/-- The ledger `ledgerB1` on a content backend whose saves are cancelled. -/
def flakySaveLedger : LedgerStore MultipartUpload :=
  { ledgerB1 with dag := { quietBackend with saveFault := fun _ => some "context canceled" } }

/-- The ledger `ledgerB1` with object `o1` in the loaded object map of `b1` and in the
bucket record persisted for `b1`. -/
def ledgerWithObject : LedgerStore MultipartUpload :=
  { ledgerB1 with
    Buckets := fun b =>
      if b = "b1" then
        some { Bucket := { Name := "b1",
                           Objects := some (fun o => if o = "o1" then some "hashA" else none) },
               loaded := true }
      else none
    dag :=
      { quietBackend with
        saved := fun b =>
          if b = "b1" then
            some { Name := "b1", Objects := some (fun o => if o = "o1" then some "hashA" else none) }
          else none } }

/-! ## Lock and store events -/

/-- What an execution does to the locks and to the durable store, in program order. -/
inductive Event where
  | acquire (l : Lock)
  | release (l : Lock)
  | dsGet (k : Key)
  | dsPut (k : Key)
  | dsDelete (k : Key)
  deriving DecidableEq, Repr

/-- Whether some store call of the events is made while lock `l` is held, when the
execution starts with the locks `held`. -/
def storeCallWhileHeld (l : Lock) : List Lock → List Event → Bool
  | _, [] => false
  | held, Event.acquire l1 :: es => storeCallWhileHeld l (l1 :: held) es
  | held, Event.release l1 :: es => storeCallWhileHeld l (held.erase l1) es
  | held, Event.dsGet _ :: es => decide (l ∈ held) || storeCallWhileHeld l held es
  | held, Event.dsPut _ :: es => decide (l ∈ held) || storeCallWhileHeld l held es
  | held, Event.dsDelete _ :: es => decide (l ∈ held) || storeCallWhileHeld l held es

/-- Whether the events contain a store call at all. -/
def hasStoreCall : List Event → Bool
  | [] => false
  | Event.acquire _ :: es => hasStoreCall es
  | Event.release _ :: es => hasStoreCall es
  | _ :: _ => true

/-- The locks held after the events, when the execution starts with the locks `held`. -/
def heldAfter : List Lock → List Event → List Lock
  | held, [] => held
  | held, Event.acquire l1 :: es => heldAfter (l1 :: held) es
  | held, Event.release l1 :: es => heldAfter (held.erase l1) es
  | held, _ :: es => heldAfter held es

/-- Events of `AssertBucketExits` (modelled from the spec, as the function is). -/
def AssertBucketExitsEvents (bucket : String) : List Event :=
  [Event.acquire (Lock.bucketRead bucket), Event.release (Lock.bucketRead bucket)]

/-- Events of `getMultipartNilable`: `pmapLocker.Lock()`, the deferred `Unlock()` at
the return, and between them the store `Get` when the id is not in the registry. -/
def getMultipartNilableEvents {β : Type} (ls : LedgerStore β) (uploadID : String) : List Event :=
  Event.acquire Lock.pmap ::
    ((match ls.MultipartUploads uploadID with
      | some _ => []
      | none => [Event.dsGet (Key.part uploadID)]) ++ [Event.release Lock.pmap])

/-- Events of `MultipartIDExists`, which only calls the lookup. -/
def MultipartIDExistsEvents {β : Type} (ls : LedgerStore β) (id : String) : List Event :=
  getMultipartNilableEvents ls id

/-- Events of `DeleteMultipartID`: `pmapLocker.Lock()`, the store `Delete`, and the
deferred `Unlock()` at the return. -/
def DeleteMultipartIDEvents (uploadID : String) : List Event :=
  [Event.acquire Lock.pmap, Event.dsDelete (Key.part uploadID), Event.release Lock.pmap]

/-- Events of `AbortMultipartUpload`. -/
def AbortMultipartUploadEvents {β : Type} (ls : LedgerStore β) (bucket multipartID : String) :
    List Event :=
  AssertBucketExitsEvents bucket ++
    (match assertBucketExits ls bucket with
      | some _ => []
      | none => DeleteMultipartIDEvents multipartID)

/-- Events of `NewMultipartUpload`: the registry insert between `pmapLocker.Lock()` and
`Unlock()`, then the store `Put` if `Marshal` succeeded, and at the return the deferred
`ls.locker.write(bucket)`. -/
def NewMultipartUploadEvents {β : Type} (c : Codec β) (ls : LedgerStore β)
    (multipartID : String) (info : Option ObjectInfo) : List Event :=
  (match assertBucketExits ls (ObjectInfo.GetBucket info) with
    | some _ => []
    | none =>
      [Event.acquire Lock.pmap, Event.release Lock.pmap] ++
        (match c.Marshal { ObjectInfo := info, Id := multipartID, ObjectParts := none } with
          | Except.error _ => []
          | Except.ok _ => [Event.dsPut (Key.part multipartID)])) ++
    [Event.acquire (Lock.bucketWrite (ObjectInfo.GetBucket info))]

/-- Events of `PutObjectPart`: the bucket check, `plocker.write`, the lookup, the store
`Put` if the part could be written and `Marshal` succeeded, and the deferred release. -/
def PutObjectPartEvents {β : Type} (c : Codec β) (ls : LedgerStore β)
    (bucketName partHash multipartID : String) (partNumber : Int) : List Event :=
  AssertBucketExitsEvents bucketName ++
    (match assertBucketExits ls bucketName with
      | some _ => []
      | none =>
        Event.acquire (Lock.partWrite multipartID) ::
          (getMultipartNilableEvents ls multipartID ++
            (match (getMultipartLoaded c ls multipartID).1 with
              | (some m, none) =>
                (match m.ObjectParts with
                  | none => []
                  | some parts =>
                    (match c.Marshal { m with ObjectParts := some (Function.update parts partNumber
                        (some { Number := partNumber, DataHash := partHash })) } with
                      | Except.error _ => []
                      | Except.ok _ => [Event.dsPut (Key.part multipartID)]))
              | _ => []) ++
            [Event.release (Lock.partWrite multipartID)]))

/-- Events of `GetObjectDetails`: `plocker.read`, the lookup, and the release on the
error path only. -/
def GetObjectDetailsEvents {β : Type} (c : Codec β) (ls : LedgerStore β) (id : String) :
    List Event :=
  Event.acquire (Lock.partRead id) ::
    (getMultipartNilableEvents ls id ++
      (match (getMultipartLoaded c ls id).1.2 with
        | some _ => [Event.release (Lock.partRead id)]
        | none => []))

/-- A ledger with the two buckets `b1` and `b2`, and the upload `u1`, created for
`(b1, o1)`, resident with an allocated part map and stored. -/
def ledgerTwoBuckets : LedgerStore MultipartUpload :=
  { ledgerB1 with
    Buckets := fun b =>
      if b = "b1" ∨ b = "b2" then some { Bucket := { Name := b, Objects := none }, loaded := true }
      else none
    MultipartUploads := fun i =>
      if i = "u1" then
        some { ObjectInfo := some { Bucket := "b1", Name := "o1" }, Id := "u1",
               ObjectParts := some (fun _ => none) }
      else none
    ds :=
      { healthyStore with
        data := fun k =>
          if k = Key.part "u1" then
            some { ObjectInfo := some { Bucket := "b1", Name := "o1" }, Id := "u1",
                   ObjectParts := some (fun _ => none) }
          else none } }

/-- The ledger `ledgerTwoBuckets` with the upload `u1` stored but not resident. -/
def ledgerStoredOnly : LedgerStore MultipartUpload :=
  { ledgerTwoBuckets with MultipartUploads := fun _ => none }

/-- The record after `m.ObjectParts[n] = ObjectPartInfo(n, h)`, for a record `m` whose
part map is the allocated map `parts`. -/
def MultipartUpload.withPart (m : MultipartUpload) (parts : Int → Option ObjectPartInfo)
    (n : Int) (h : String) : MultipartUpload :=
  { m with ObjectParts := some (Function.update parts n (some { Number := n, DataHash := h })) }

/-! ## Replay of buffered console logs (`cmd/consolelogger.go`)

The log entry type `madmin.LogInfo`, its zero value and its method `SendLog` are not
among the sources: the definitions below take them as parameters `α`, `zero` and
`SendLog`. The ring `sys.logBuf` is the list of its slot values seen from the cursor in
forward order, which is the order in which `Do` visits them; an empty slot is `none`. -/

/-- The constant `defaultLogBufferCount`. -/
def defaultLogBufferCount : Nat := 10000

/-- The ring `ring.New(n)`: `n` empty slots. -/
def ringNew {α : Type} (n : Nat) : List (Option α) :=
  List.replicate n none

/-- The ring step of `Send`: `sys.logBuf.Value = lg; sys.logBuf = sys.logBuf.Next()`.
The slot under the cursor takes `lg` and the cursor moves on, so that slot is seen last. -/
def ringPut {α : Type} (logBuf : List (Option α)) (lg : α) : List (Option α) :=
  match logBuf with
  | [] => []
  | _ :: rest => rest ++ [some lg]

/-- The replay count of `Subscribe`: `last` outside `1 .. defaultLogBufferCount` is
`defaultLogBufferCount`. -/
def clampLast (last : Int) : Nat :=
  if last > (defaultLogBufferCount : Int) ∨ last ≤ 0 then defaultLogBufferCount else last.toNat

/-- The array assignment `xs[i] = v`; `none` is the index-out-of-range panic. -/
def setIndex {α : Type} (xs : List α) (i : Nat) (v : α) : Option (List α) :=
  if i < xs.length then some (xs.set i v) else none

/-- The pass of `sys.logBuf.Do` in `Subscribe` over the slots still to visit, on the
replay array `lastN` and the counter `cnt`: a non-nil entry that `SendLog` accepts goes
to `lastN[cnt%last]` and is counted. -/
def collect {α : Type} (SendLog : α → String → String → Bool) (node logKind : String)
    (last : Nat) : List (Option α) → List α × Nat → Option (List α × Nat)
  | [], st => some st
  | none :: ps, st => collect SendLog node logKind last ps st
  | some p :: ps, st =>
    if SendLog p node logKind then
      match setIndex st.1 (st.2 % last) p with
      | none => none
      | some lastN => collect SendLog node logKind last ps (lastN, st.2 + 1)
    else collect SendLog node logKind last ps st

/-- The loop `for i := 0; i < last; i++` of `Subscribe` from index `i` with `k` rounds
to go: the entries sent on `subCh`, in order; an entry equal to the zero value is
skipped; `none` is the index-out-of-range panic. -/
def sendLoop {α : Type} [DecidableEq α] (zero : α) (lastN : List α) (cnt last : Nat) :
    Nat → Nat → Option (List α)
  | _, 0 => some []
  | i, k + 1 =>
    match lastN[(cnt + i) % last]? with
    | none => none
    | some entry =>
      if entry = zero then sendLoop zero lastN cnt last (i + 1) k
      else (sendLoop zero lastN cnt last (i + 1) k).map (fun out => entry :: out)

/-- The replay of `Subscribe`, up to the call of `sys.pubsub.Subscribe`: the entries
sent on `subCh`, in order, to a subscriber that keeps receiving (`doneCh` stays open);
`none` is an index-out-of-range panic. -/
def Subscribe {α : Type} [DecidableEq α] (SendLog : α → String → String → Bool) (zero : α)
    (logBuf : List (Option α)) (node : String) (last : Int) (logKind : String) :
    Option (List α) :=
  let last := clampLast last
  let lastN := List.replicate last zero
  match collect SendLog node logKind last logBuf (lastN, 0) with
  | none => none
  | some (lastN, cnt) =>
    if cnt > 0 then sendLoop zero lastN cnt last 0 last else some []

/-- The buffered entries that `SendLog(node, logKind)` accepts, in the order of the
ring. -/
def accepted {α : Type} (SendLog : α → String → String → Bool) (node logKind : String)
    (logBuf : List (Option α)) : List α :=
  (logBuf.filterMap id).filter (fun p => SendLog p node logKind)

/-- The replay array `l` of length `last` after the accepted entries `a` have been
written round-robin: the entries of `a` that are at most `last` from its end sit at
their index modulo `last`, and the slots never written hold the zero value. -/
def Window {α : Type} (zero : α) (last : Nat) (a l : List α) : Prop :=
  l.length = last ∧
  (∀ t, t < a.length → a.length ≤ t + last → l[t % last]? = a[t]?) ∧
  (∀ j, a.length ≤ j → j < last → l[j]? = some zero)

/-- The ledger `ledgerB1` with the upload `u1` stored, with its part 2 recorded, and not
resident. -/
def ledgerStoredWithPart : LedgerStore MultipartUpload :=
  { ledgerB1 with
    ds :=
      { healthyStore with
        data := fun k =>
          if k = Key.part "u1" then
            some { ObjectInfo := some { Bucket := "b1", Name := "o1" }, Id := "u1",
                   ObjectParts := some (fun i =>
                     if i = 2 then some { Number := 2, DataHash := "hashOld" } else none) }
          else none } }

/-! ## Basic facts about the embedding -/

@[simp] theorem release_acquire {β : Type} (ls : LedgerStore β) (l : Lock) :
    (ls.acquire l).release l = ls := by
  cases ls
  simp [LedgerStore.acquire, LedgerStore.release]

@[simp] theorem acquire_MultipartUploads {β : Type} (ls : LedgerStore β) (l : Lock) :
    (ls.acquire l).MultipartUploads = ls.MultipartUploads := rfl

@[simp] theorem acquire_Buckets {β : Type} (ls : LedgerStore β) (l : Lock) :
    (ls.acquire l).Buckets = ls.Buckets := rfl

@[simp] theorem acquire_ds {β : Type} (ls : LedgerStore β) (l : Lock) :
    (ls.acquire l).ds = ls.ds := rfl

@[simp] theorem acquire_dag {β : Type} (ls : LedgerStore β) (l : Lock) :
    (ls.acquire l).dag = ls.dag := rfl

@[simp] theorem acquire_held {β : Type} (ls : LedgerStore β) (l : Lock) :
    (ls.acquire l).held = l :: ls.held := rfl

@[simp] theorem release_MultipartUploads {β : Type} (ls : LedgerStore β) (l : Lock) :
    (ls.release l).MultipartUploads = ls.MultipartUploads := rfl

@[simp] theorem release_Buckets {β : Type} (ls : LedgerStore β) (l : Lock) :
    (ls.release l).Buckets = ls.Buckets := rfl

@[simp] theorem release_ds {β : Type} (ls : LedgerStore β) (l : Lock) :
    (ls.release l).ds = ls.ds := rfl

@[simp] theorem release_dag {β : Type} (ls : LedgerStore β) (l : Lock) :
    (ls.release l).dag = ls.dag := rfl

@[simp] theorem release_held {β : Type} (ls : LedgerStore β) (l : Lock) :
    (ls.release l).held = ls.held.erase l := rfl

@[simp] theorem assertBucketExits_acquire {β : Type} (ls : LedgerStore β) (l : Lock)
    (bucket : String) : assertBucketExits (ls.acquire l) bucket = assertBucketExits ls bucket :=
  rfl

/-- The public bucket check gives back the state it was called in. -/
theorem AssertBucketExits_eq {β : Type} (ls : LedgerStore β) (bucket : String) :
    AssertBucketExits ls bucket = (assertBucketExits ls bucket, ls) := by
  simp [AssertBucketExits]

/-- The internal bucket check succeeds exactly on the buckets of the registry. -/
theorem assertBucketExits_eq_none {β : Type} (ls : LedgerStore β) (bucket : String) :
    assertBucketExits ls bucket = none ↔ ls.Buckets bucket ≠ none := by
  unfold assertBucketExits getBucket
  cases h : ls.Buckets bucket <;> simp

/-- On a bucket that is not in the registry the internal check reports it. -/
theorem assertBucketExits_missing {β : Type} (ls : LedgerStore β) (bucket : String)
    (h : ls.Buckets bucket = none) :
    assertBucketExits ls bucket = some Err.ErrLedgerBucketDoesNotExist := by
  unfold assertBucketExits getBucket
  simp [h]

/-- The load-on-miss lookup gives back the state it was called in. -/
theorem getMultipartNilable_snd {β : Type} (c : Codec β) (ls : LedgerStore β) (id : String) :
    (getMultipartNilable c ls id).2 = ls := by
  simp [getMultipartNilable]

/-- A resident id is answered from memory. -/
theorem getMultipartNilable_resident {β : Type} (c : Codec β) (ls : LedgerStore β)
    (id : String) (mu : MultipartUpload) (h : ls.MultipartUploads id = some mu) :
    getMultipartNilable c ls id = ((some mu, none), ls) := by
  simp [getMultipartNilable, h]

/-- A miss in memory on a key the store does not have is `(nil, nil)`. -/
theorem getMultipartNilable_notFound {β : Type} (c : Codec β) (ls : LedgerStore β)
    (id : String) (h : ls.MultipartUploads id = none)
    (hg : ls.ds.Get (Key.part id) = Except.error Err.ErrNotFound) :
    getMultipartNilable c ls id = ((none, none), ls) := by
  simp [getMultipartNilable, h, hg]

/-- A miss in memory on a failing store read is that failure. -/
theorem getMultipartNilable_getError {β : Type} (c : Codec β) (ls : LedgerStore β)
    (id : String) (e : Err) (h : ls.MultipartUploads id = none)
    (hg : ls.ds.Get (Key.part id) = Except.error e) (he : e ≠ Err.ErrNotFound) :
    getMultipartNilable c ls id = ((none, some e), ls) := by
  simp [getMultipartNilable, h, hg, he]

/-- A miss in memory on bytes that do not decode is the decode error. -/
theorem getMultipartNilable_decodeError {β : Type} (c : Codec β) (ls : LedgerStore β)
    (id : String) (data : β) (e : Err) (h : ls.MultipartUploads id = none)
    (hg : ls.ds.Get (Key.part id) = Except.ok data) (hu : c.Unmarshal data = Except.error e) :
    getMultipartNilable c ls id = ((none, some e), ls) := by
  simp [getMultipartNilable, h, hg, hu]

/-- A miss in memory on bytes that decode is the decoded record. -/
theorem getMultipartNilable_decoded {β : Type} (c : Codec β) (ls : LedgerStore β)
    (id : String) (data : β) (mu : MultipartUpload) (h : ls.MultipartUploads id = none)
    (hg : ls.ds.Get (Key.part id) = Except.ok data) (hu : c.Unmarshal data = Except.ok mu) :
    getMultipartNilable c ls id = ((some mu, none), ls) := by
  simp [getMultipartNilable, h, hg, hu]

/-- The checked lookup gives back the state it was called in. -/
theorem getMultipartLoaded_snd {β : Type} (c : Codec β) (ls : LedgerStore β) (id : String) :
    (getMultipartLoaded c ls id).2 = ls := by
  have h := getMultipartNilable_snd c ls id
  unfold getMultipartLoaded
  split <;> simp_all

/-- A resident id is answered from memory by the checked lookup. -/
theorem getMultipartLoaded_resident {β : Type} (c : Codec β) (ls : LedgerStore β)
    (id : String) (mu : MultipartUpload) (h : ls.MultipartUploads id = some mu) :
    getMultipartLoaded c ls id = ((some mu, none), ls) := by
  simp [getMultipartLoaded, getMultipartNilable_resident c ls id mu h]

/-- The checked lookup of an id that is neither resident nor stored, on a store whose
read works, is `ErrInvalidUploadID`. -/
theorem getMultipartLoaded_absent {β : Type} (c : Codec β) (ls : LedgerStore β) (id : String)
    (hm : ls.MultipartUploads id = none) (hd : ls.ds.data (Key.part id) = none)
    (hf : ls.ds.getFault (Key.part id) = none) :
    getMultipartLoaded c ls id = ((none, some Err.ErrInvalidUploadID), ls) := by
  have hg : ls.ds.Get (Key.part id) = Except.error Err.ErrNotFound := by
    simp [Datastore.Get, hf, hd]
  simp [getMultipartLoaded, getMultipartNilable_notFound c ls id hm hg]

/-- The checked lookup of an id that is not resident, on a store whose read fails, is
that failure. -/
theorem getMultipartLoaded_readFault {β : Type} (c : Codec β) (ls : LedgerStore β)
    (id : String) (msg : String) (hm : ls.MultipartUploads id = none)
    (hf : ls.ds.getFault (Key.part id) = some msg) :
    getMultipartLoaded c ls id = ((none, some (Err.backend msg)), ls) := by
  have hg : ls.ds.Get (Key.part id) = Except.error (Err.backend msg) := by
    simp [Datastore.Get, hf]
  have hne : Err.backend msg ≠ Err.ErrNotFound := by simp
  simp [getMultipartLoaded, getMultipartNilable_getError c ls id _ hm hg hne]

/-- The operation `PutObjectPart` on a resident record whose part map is allocated:
`m1` is the record with the part written. -/
theorem PutObjectPart_resident {β : Type} (c : Codec β) (ls : LedgerStore β)
    (b o h id : String) (n : Int) (m m1 : MultipartUpload) (parts : Int → Option ObjectPartInfo)
    (hb : ls.Buckets b ≠ none) (hm : ls.MultipartUploads id = some m)
    (hp : m.ObjectParts = some parts)
    (hm1 : m1 =
      { m with ObjectParts := some (Function.update parts n (some { Number := n, DataHash := h })) }) :
    PutObjectPart c ls b o h id n =
      match c.Marshal m1 with
      | Except.error err =>
        (Outcome.ret (some err),
          { ls with MultipartUploads := Function.update ls.MultipartUploads id (some m1) })
      | Except.ok data =>
        (Outcome.ret (ls.ds.Put (Key.part id) data).1,
          { ls with
            MultipartUploads := Function.update ls.MultipartUploads id (some m1)
            ds := (ls.ds.Put (Key.part id) data).2 }) := by
  have hl := getMultipartLoaded_resident c (ls.acquire (Lock.partWrite id)) id m hm
  unfold PutObjectPart
  rw [AssertBucketExits_eq]
  simp only [(assertBucketExits_eq_none ls b).2 hb, hl, hp]
  rw [← hm1]
  cases hM : c.Marshal m1 with
  | error e =>
    cases ls
    simp_all [storeThrough, LedgerStore.acquire, LedgerStore.release]
  | ok data =>
    cases ls
    simp_all [storeThrough, LedgerStore.acquire, LedgerStore.release]

/-- The operation `PutObjectPart` on a bucket that is not in the registry. -/
theorem PutObjectPart_missing {β : Type} (c : Codec β) (ls : LedgerStore β)
    (b o h id : String) (n : Int) (hb : ls.Buckets b = none) :
    PutObjectPart c ls b o h id n =
      (Outcome.ret (some Err.ErrLedgerBucketDoesNotExist), ls) := by
  unfold PutObjectPart
  rw [AssertBucketExits_eq]
  simp only [assertBucketExits_missing ls b hb]

/-- A successful `PutObjectPart` on a resident record with an allocated part map:
the record with the part written is resident and its encoding is stored. -/
theorem PutObjectPart_resident_ok {β : Type} (c : Codec β) (ls s1 : LedgerStore β)
    (b o h id : String) (n : Int) (m m1 : MultipartUpload) (parts : Int → Option ObjectPartInfo)
    (hm : ls.MultipartUploads id = some m) (hp : m.ObjectParts = some parts)
    (hm1 : m1 =
      { m with ObjectParts := some (Function.update parts n (some { Number := n, DataHash := h })) })
    (hc : PutObjectPart c ls b o h id n = (Outcome.ret none, s1)) :
    ∃ data, c.Marshal m1 = Except.ok data ∧
      s1 = { ls with
        MultipartUploads := Function.update ls.MultipartUploads id (some m1)
        ds := { ls.ds with data := Function.update ls.ds.data (Key.part id) (some data) } } := by
  have hb : ls.Buckets b ≠ none := by
    intro hb
    rw [PutObjectPart_missing c ls b o h id n hb] at hc
    simp at hc
  rw [PutObjectPart_resident c ls b o h id n m m1 parts hb hm hp hm1] at hc
  cases hM : c.Marshal m1 with
  | error e => simp [hM] at hc
  | ok data =>
    refine ⟨data, rfl, ?_⟩
    simp only [hM, Datastore.Put] at hc
    cases hf : ls.ds.putFault (Key.part id) with
    | some msg => simp [hf] at hc
    | none =>
      simp only [hf, Prod.mk.injEq, true_and] at hc
      exact hc.symm

/-- The operation `NewMultipartUpload` on a bucket of the registry: `m` is the new record. -/
theorem NewMultipartUpload_existing {β : Type} (c : Codec β) (ls : LedgerStore β)
    (id : String) (info : Option ObjectInfo) (m : MultipartUpload)
    (hb : ls.Buckets (ObjectInfo.GetBucket info) ≠ none)
    (hm : m = { ObjectInfo := info, Id := id, ObjectParts := none }) :
    NewMultipartUpload c ls id info =
      match c.Marshal m with
      | Except.error err =>
        (some err,
          { ls with
            MultipartUploads := Function.update ls.MultipartUploads id (some m)
            held := Lock.bucketWrite (ObjectInfo.GetBucket info) :: ls.held })
      | Except.ok data =>
        ((ls.ds.Put (Key.part id) data).1,
          { ls with
            MultipartUploads := Function.update ls.MultipartUploads id (some m)
            ds := (ls.ds.Put (Key.part id) data).2
            held := Lock.bucketWrite (ObjectInfo.GetBucket info) :: ls.held }) := by
  unfold NewMultipartUpload
  simp only [(assertBucketExits_eq_none ls _).2 hb]
  rw [← hm]
  cases hM : c.Marshal m with
  | error e =>
    cases ls
    simp [LedgerStore.acquire, LedgerStore.release]
  | ok data =>
    cases ls
    simp [LedgerStore.acquire, LedgerStore.release]

/-- The operation `NewMultipartUpload` on a bucket that is not in the registry. -/
theorem NewMultipartUpload_missing {β : Type} (c : Codec β) (ls : LedgerStore β)
    (id : String) (info : Option ObjectInfo)
    (hb : ls.Buckets (ObjectInfo.GetBucket info) = none) :
    NewMultipartUpload c ls id info =
      (some Err.ErrLedgerBucketDoesNotExist,
        ls.acquire (Lock.bucketWrite (ObjectInfo.GetBucket info))) := by
  unfold NewMultipartUpload
  simp only [assertBucketExits_missing ls _ hb]

/-- The operation `DeleteMultipartID` without its lock bookkeeping. -/
theorem DeleteMultipartID_eq {β : Type} (ls : LedgerStore β) (id : String) :
    DeleteMultipartID ls id =
      (if (ls.ds.Delete (Key.part id)).1 = some Err.ErrNotFound then some Err.ErrInvalidUploadID
        else (ls.ds.Delete (Key.part id)).1,
        { ls with
          MultipartUploads := Function.update ls.MultipartUploads id none
          ds := (ls.ds.Delete (Key.part id)).2 }) := by
  unfold DeleteMultipartID
  cases ls
  simp only [LedgerStore.acquire, LedgerStore.release, List.erase_cons_head]
  split <;> rfl

/-- The operation `AbortMultipartUpload` on a bucket of the registry is the deletion. -/
theorem AbortMultipartUpload_existing {β : Type} (ls : LedgerStore β) (bucket id : String)
    (hb : ls.Buckets bucket ≠ none) :
    AbortMultipartUpload ls bucket id = DeleteMultipartID ls id := by
  unfold AbortMultipartUpload
  rw [AssertBucketExits_eq]
  simp only [(assertBucketExits_eq_none ls bucket).2 hb]

/-- The operation `AbortMultipartUpload` on a bucket that is not in the registry. -/
theorem AbortMultipartUpload_missing {β : Type} (ls : LedgerStore β) (bucket id : String)
    (hb : ls.Buckets bucket = none) :
    AbortMultipartUpload ls bucket id = (some Err.ErrLedgerBucketDoesNotExist, ls) := by
  unfold AbortMultipartUpload
  rw [AssertBucketExits_eq]
  simp only [assertBucketExits_missing ls bucket hb]

/-- A deletion that reports no error removed the id from the registry and from the
store, and touched nothing else. -/
theorem DeleteMultipartID_ok {β : Type} (ls s1 : LedgerStore β) (id : String)
    (hd : DeleteMultipartID ls id = (none, s1)) :
    s1.MultipartUploads id = none ∧ s1.ds.data (Key.part id) = none ∧
      s1.ds.getFault = ls.ds.getFault ∧ s1.Buckets = ls.Buckets := by
  rw [DeleteMultipartID_eq] at hd
  unfold Datastore.Delete at hd
  cases hf : ls.ds.delFault (Key.part id) with
  | some msg => simp [hf] at hd
  | none =>
    simp only [hf, Prod.mk.injEq] at hd
    obtain ⟨-, hs⟩ := hd
    subst hs
    simp

/-- The lookup does not look at the locks. -/
theorem getMultipartNilable_acquire {β : Type} (c : Codec β) (ls : LedgerStore β) (l : Lock)
    (id : String) :
    getMultipartNilable c (ls.acquire l) id = ((getMultipartNilable c ls id).1, ls.acquire l) := by
  apply Prod.ext
  · rfl
  · exact getMultipartNilable_snd c (ls.acquire l) id

/-- The checked lookup does not look at the locks. -/
theorem getMultipartLoaded_acquire {β : Type} (c : Codec β) (ls : LedgerStore β) (l : Lock)
    (id : String) :
    getMultipartLoaded c (ls.acquire l) id = ((getMultipartLoaded c ls id).1, ls.acquire l) := by
  apply Prod.ext
  · have h1 := getMultipartNilable_acquire c ls l id
    unfold getMultipartLoaded
    rw [h1]
    rcases hr : getMultipartNilable c ls id with ⟨⟨m, e⟩, s⟩
    cases m <;> cases e <;> simp
  · exact getMultipartLoaded_snd c (ls.acquire l) id

/-- The checked lookup answers a record or an error, never both and never neither. -/
theorem getMultipartLoaded_shape {β : Type} (c : Codec β) (ls : LedgerStore β) (id : String) :
    (∃ m, (getMultipartLoaded c ls id).1 = (some m, none)) ∨
      (∃ e, (getMultipartLoaded c ls id).1 = (none, some e)) := by
  unfold getMultipartLoaded
  rcases hr : getMultipartNilable c ls id with ⟨⟨m, e⟩, s⟩
  cases m <;> cases e <;> simp

/-- The operation `MultipartIDExists` answers the error of the checked lookup. -/
theorem MultipartIDExists_eq {β : Type} (c : Codec β) (ls : LedgerStore β) (id : String) :
    MultipartIDExists c ls id = ((getMultipartLoaded c ls id).1.2, ls) := by
  simp [MultipartIDExists, accertValidUploadID, getMultipartLoaded_snd]

/-- The operation `GetObjectDetails` when the checked lookup fails. -/
theorem GetObjectDetails_error {β : Type} (c : Codec β) (ls : LedgerStore β) (id : String)
    (e : Err) (h : (getMultipartLoaded c ls id).1 = (none, some e)) :
    GetObjectDetails c ls id = ((none, none, some e), ls) := by
  unfold GetObjectDetails
  simp only [getMultipartLoaded_acquire, h, release_acquire]

/-- The operation `GetObjectDetails` when the checked lookup finds a record. -/
theorem GetObjectDetails_found {β : Type} (c : Codec β) (ls : LedgerStore β) (id : String)
    (m : MultipartUpload) (h : (getMultipartLoaded c ls id).1 = (some m, none)) :
    GetObjectDetails c ls id =
      ((some m, some (Lock.partRead id), none), ls.acquire (Lock.partRead id)) := by
  unfold GetObjectDetails
  simp only [getMultipartLoaded_acquire, h]

/-- The operation `PutObjectPart` on an existing bucket when the checked lookup fails. -/
theorem PutObjectPart_error {β : Type} (c : Codec β) (ls : LedgerStore β)
    (b o h id : String) (n : Int) (e : Err) (hb : ls.Buckets b ≠ none)
    (hl : (getMultipartLoaded c ls id).1 = (none, some e)) :
    PutObjectPart c ls b o h id n = (Outcome.ret (some e), ls) := by
  unfold PutObjectPart
  rw [AssertBucketExits_eq]
  simp only [(assertBucketExits_eq_none ls b).2 hb, getMultipartLoaded_acquire, hl,
    release_acquire]

/-! ## Scenario A -/

/-- C1, on the code: from a state where bucket `b` exists and the store accepts the
write, `NewMultipartUpload(u, (b, o))` returns no error, and the following
`PutObjectPart(b, o, h, u, n)` does not return: the record that `NewMultipartUpload`
made resident has a nil part map and the assignment into it panics. -/
theorem scenarioA_part_write_panics {β : Type} (c : Codec β) (ls : LedgerStore β)
    (u b o h : String) (n : Int) (data : β)
    (hb : ls.Buckets b ≠ none)
    (hM : c.Marshal { ObjectInfo := some { Bucket := b, Name := o }, Id := u, ObjectParts := none }
      = Except.ok data)
    (hP : ls.ds.putFault (Key.part u) = none) :
    (NewMultipartUpload c ls u (some { Bucket := b, Name := o })).1 = none ∧
      (PutObjectPart c (NewMultipartUpload c ls u (some { Bucket := b, Name := o })).2
        b o h u n).1 = Outcome.panic "assignment to entry in nil map" := by
  have hb1 : ls.Buckets (ObjectInfo.GetBucket (some { Bucket := b, Name := o })) ≠ none := hb
  rw [NewMultipartUpload_existing c ls u _ _ hb1 rfl]
  simp only [hM, Datastore.Put, hP, true_and]
  unfold PutObjectPart
  rw [AssertBucketExits_eq]
  have hb2 : assertBucketExits
      ({ ls with
        MultipartUploads := Function.update ls.MultipartUploads u
          (some { ObjectInfo := some { Bucket := b, Name := o }, Id := u, ObjectParts := none })
        ds := { ls.ds with data := Function.update ls.ds.data (Key.part u) (some data) }
        held := Lock.bucketWrite (ObjectInfo.GetBucket (some { Bucket := b, Name := o }))
          :: ls.held } : LedgerStore β) b = none :=
    (assertBucketExits_eq_none _ b).2 hb
  simp only [hb2]
  rw [getMultipartLoaded_resident c _ u
    { ObjectInfo := some { Bucket := b, Name := o }, Id := u, ObjectParts := none }
    (by simp)]

/-- Scenario A itself: bucket `b1`, upload `u1`, object `o1`, hash `hashA`, part 1. -/
theorem scenarioA_part_write_panics_witness :
    ledgerB1.Buckets "b1" ≠ none ∧
      plainCodec.Marshal
          { ObjectInfo := some { Bucket := "b1", Name := "o1" }, Id := "u1", ObjectParts := none }
        = Except.ok
          { ObjectInfo := some { Bucket := "b1", Name := "o1" }, Id := "u1", ObjectParts := none } ∧
      ledgerB1.ds.putFault (Key.part "u1") = none ∧
      (NewMultipartUpload plainCodec ledgerB1 "u1" (some { Bucket := "b1", Name := "o1" })).1
        = none ∧
      (PutObjectPart plainCodec
          (NewMultipartUpload plainCodec ledgerB1 "u1" (some { Bucket := "b1", Name := "o1" })).2
          "b1" "o1" "hashA" "u1" 1).1 = Outcome.panic "assignment to entry in nil map" :=
  ⟨by simp [ledgerB1], rfl, rfl,
    scenarioA_part_write_panics plainCodec ledgerB1 "u1" "b1" "o1" "hashA" 1 _
      (by simp [ledgerB1]) rfl rfl⟩

/-! ## Part overwrite -/

/-- C2: for an upload id resident in the registry with an allocated part map, two
successive successful calls `PutObjectPart(.., h1, id, n)` and `PutObjectPart(.., h2, id, n)`
leave the resident record with part `n` equal to `(n, h2)`, every other part number as
it was, and the id and object info of the record as they were. -/
theorem putObjectPart_last_write_wins {β : Type} (c : Codec β) (ls s1 s2 : LedgerStore β)
    (b1 o1 b2 o2 h1 h2 id : String) (n : Int) (m : MultipartUpload)
    (parts : Int → Option ObjectPartInfo)
    (hm : ls.MultipartUploads id = some m) (hp : m.ObjectParts = some parts)
    (hc1 : PutObjectPart c ls b1 o1 h1 id n = (Outcome.ret none, s1))
    (hc2 : PutObjectPart c s1 b2 o2 h2 id n = (Outcome.ret none, s2)) :
    ∃ m2, s2.MultipartUploads id = some m2 ∧
      m2.part n = some { Number := n, DataHash := h2 } ∧
      (∀ k, k ≠ n → m2.part k = m.part k) ∧
      m2.Id = m.Id ∧ m2.ObjectInfo = m.ObjectInfo := by
  obtain ⟨d1, -, hs1⟩ := PutObjectPart_resident_ok c ls s1 b1 o1 h1 id n m _ parts hm hp rfl hc1
  have hm1 : s1.MultipartUploads id = some
      { m with ObjectParts := some (Function.update parts n (some { Number := n, DataHash := h1 })) } := by
    rw [hs1]
    simp
  obtain ⟨d2, -, hs2⟩ := PutObjectPart_resident_ok c s1 s2 b2 o2 h2 id n _ _ _ hm1 rfl rfl hc2
  refine ⟨{ m with ObjectParts := some (Function.update
      (Function.update parts n (some { Number := n, DataHash := h1 })) n
      (some { Number := n, DataHash := h2 })) }, by rw [hs2]; simp, ?_, ?_, rfl, rfl⟩
  · simp [MultipartUpload.part]
  · intro k hk
    simp [MultipartUpload.part, hp, Function.update_noteq hk]

/-- The two writes of C2 on the ledger `ledgerU1`: part 1 of `u1`, first `hashA`, then
`hashB`; both calls succeed and part 1 ends as `hashB`. -/
theorem putObjectPart_last_write_wins_witness :
    (PutObjectPart plainCodec ledgerU1 "b1" "o1" "hashA" "u1" 1).1 = Outcome.ret none ∧
    (PutObjectPart plainCodec (PutObjectPart plainCodec ledgerU1 "b1" "o1" "hashA" "u1" 1).2
        "b1" "o1" "hashB" "u1" 1).1 = Outcome.ret none ∧
    ∃ m2, (PutObjectPart plainCodec
        (PutObjectPart plainCodec ledgerU1 "b1" "o1" "hashA" "u1" 1).2
        "b1" "o1" "hashB" "u1" 1).2.MultipartUploads "u1" = some m2 ∧
      m2.part 1 = some { Number := 1, DataHash := "hashB" } ∧
      (∀ k, k ≠ 1 → m2.part k =
        MultipartUpload.part { ObjectInfo := none, Id := "u1", ObjectParts := some (fun _ => none) } k) ∧
      m2.Id = "u1" ∧ m2.ObjectInfo = none :=
  ⟨by decide, by decide,
    putObjectPart_last_write_wins plainCodec ledgerU1 _ _ "b1" "o1" "b1" "o1" "hashA" "hashB" "u1" 1
      { ObjectInfo := none, Id := "u1", ObjectParts := some (fun _ => none) } (fun _ => none)
      (by simp [ledgerU1]) rfl
      (Prod.ext (by decide) rfl)
      (Prod.ext (by decide) rfl)⟩

/-! ## Deleted upload ids -/

/-- C3, as the code has it: after `DeleteMultipartID(id)`, or `AbortMultipartUpload(bucket, id)`,
returns without error, the id is absent from the registry and from the durable store, and
each of `MultipartIDExists(id)`, `GetObjectDetails(id)` and `PutObjectPart` on an existing
bucket returns an error and no record: `ErrInvalidUploadID` when the store read of the key
works, and the failure of the store read when it fails. -/
theorem deleted_id_is_invalid {β : Type} (c : Codec β) (ls s1 : LedgerStore β)
    (bucket id : String)
    (hd : DeleteMultipartID ls id = (none, s1) ∨ AbortMultipartUpload ls bucket id = (none, s1)) :
    s1.MultipartUploads id = none ∧ s1.ds.data (Key.part id) = none ∧
    (s1.ds.getFault (Key.part id) = none →
      (MultipartIDExists c s1 id).1 = some Err.ErrInvalidUploadID ∧
      (GetObjectDetails c s1 id).1 = (none, none, some Err.ErrInvalidUploadID) ∧
      ∀ b o h n, s1.Buckets b ≠ none →
        (PutObjectPart c s1 b o h id n).1 = Outcome.ret (some Err.ErrInvalidUploadID)) ∧
    (∀ msg, s1.ds.getFault (Key.part id) = some msg →
      (MultipartIDExists c s1 id).1 = some (Err.backend msg) ∧
      (GetObjectDetails c s1 id).1 = (none, none, some (Err.backend msg)) ∧
      ∀ b o h n, s1.Buckets b ≠ none →
        (PutObjectPart c s1 b o h id n).1 = Outcome.ret (some (Err.backend msg))) := by
  have hdel : DeleteMultipartID ls id = (none, s1) := by
    rcases hd with hd | hd
    · exact hd
    · by_cases hb : ls.Buckets bucket = none
      · rw [AbortMultipartUpload_missing ls bucket id hb] at hd
        simp at hd
      · rw [AbortMultipartUpload_existing ls bucket id hb] at hd
        exact hd
  obtain ⟨hm, hk, -, -⟩ := DeleteMultipartID_ok ls s1 id hdel
  refine ⟨hm, hk, ?_, ?_⟩
  · intro hf
    have hl : (getMultipartLoaded c s1 id).1 = (none, some Err.ErrInvalidUploadID) := by
      rw [getMultipartLoaded_absent c s1 id hm hk hf]
    refine ⟨?_, ?_, ?_⟩
    · rw [MultipartIDExists_eq, hl]
    · rw [GetObjectDetails_error c s1 id _ hl]
    · intro b o h n hb
      rw [PutObjectPart_error c s1 b o h id n _ hb hl]
  · intro msg hf
    have hl : (getMultipartLoaded c s1 id).1 = (none, some (Err.backend msg)) := by
      rw [getMultipartLoaded_readFault c s1 id msg hm hf]
    refine ⟨?_, ?_, ?_⟩
    · rw [MultipartIDExists_eq, hl]
    · rw [GetObjectDetails_error c s1 id _ hl]
    · intro b o h n hb
      rw [PutObjectPart_error c s1 b o h id n _ hb hl]

/-- Scenario C on the ledger `ledgerTwoBuckets`, where `u1` is resident and stored and
no lock is held: the abort of `u1` through bucket `b1` succeeds, the store read works,
and the three operations answer `ErrInvalidUploadID`. The deletion of an id that is
resident but not stored succeeds as well. -/
theorem deleted_id_is_invalid_witness :
    (AbortMultipartUpload ledgerTwoBuckets "b1" "u1").1 = none ∧
    (AbortMultipartUpload ledgerTwoBuckets "b1" "u1").2.ds.getFault (Key.part "u1") = none ∧
    (MultipartIDExists plainCodec (AbortMultipartUpload ledgerTwoBuckets "b1" "u1").2 "u1").1
      = some Err.ErrInvalidUploadID ∧
    (GetObjectDetails plainCodec (AbortMultipartUpload ledgerTwoBuckets "b1" "u1").2 "u1").1
      = (none, none, some Err.ErrInvalidUploadID) ∧
    (PutObjectPart plainCodec (AbortMultipartUpload ledgerTwoBuckets "b1" "u1").2
      "b1" "o1" "hashB" "u1" 1).1 = Outcome.ret (some Err.ErrInvalidUploadID) ∧
    (DeleteMultipartID ledgerU1 "u1").1 = none ∧
    (MultipartIDExists plainCodec (DeleteMultipartID ledgerU1 "u1").2 "u1").1
      = some Err.ErrInvalidUploadID :=
  have h := (deleted_id_is_invalid plainCodec ledgerTwoBuckets
    (AbortMultipartUpload ledgerTwoBuckets "b1" "u1").2 "b1" "u1"
    (Or.inr (Prod.ext (by decide) rfl))).2.2.1 (by decide)
  have h2 := (deleted_id_is_invalid plainCodec ledgerU1
    (DeleteMultipartID ledgerU1 "u1").2 "b1" "u1"
    (Or.inl (Prod.ext (by decide) rfl))).2.2.1 (by decide)
  ⟨by decide, by decide, h.1, h.2.1, h.2.2 "b1" "o1" "hashB" 1 (Option.some_ne_none _),
    by decide, h2.1⟩

/-- C3 as stated fails on a store whose reads time out: on `flakyReadLedger` the
deletion of `u1` returns no error, and `MultipartIDExists("u1")` then answers the
timeout of the store, which is not `ErrInvalidUploadID`. -/
theorem deleted_id_read_failure :
    (DeleteMultipartID flakyReadLedger "u1").1 = none ∧
    (MultipartIDExists plainCodec (DeleteMultipartID flakyReadLedger "u1").2 "u1").1
      = some (Err.backend "timeout") ∧
    (MultipartIDExists plainCodec (DeleteMultipartID flakyReadLedger "u1").2 "u1").1
      ≠ some Err.ErrInvalidUploadID := by
  decide

/-! ## The bucket precondition -/

/-- The operation `RemoveObject` on a bucket that is not in the registry. -/
theorem RemoveObject_missing {β : Type} (ls : LedgerStore β) (bucket object : String)
    (hb : ls.Buckets bucket = none) :
    RemoveObject ls bucket object = (some Err.ErrLedgerBucketDoesNotExist, ls) := by
  simp [RemoveObject, getBucket, hb]

/-- The operation `putObject` on a bucket that is not in the registry. -/
theorem putObject_missing {β : Type} (ls : LedgerStore β) (bucket object objHash : String)
    (hb : ls.Buckets bucket = none) :
    putObject ls bucket object objHash = (some Err.ErrLedgerBucketDoesNotExist, ls) := by
  simp [putObject, getBucket, hb]

/-- C4: on a bucket name that does not exist, each of `NewMultipartUpload`,
`PutObjectPart`, `AbortMultipartUpload`, `RemoveObject` and `putObject` returns the
bucket-not-found error and leaves the upload registry, the bucket registry with its
object maps, the durable store and the content backend as they were; so an id that had
no record in memory or in the store before `NewMultipartUpload` has none after it. -/
theorem missing_bucket_is_rejected {β : Type} (c : Codec β) (ls : LedgerStore β)
    (bucket object hash id : String) (n : Int) (info : Option ObjectInfo)
    (hb : ls.Buckets bucket = none) (hi : ObjectInfo.GetBucket info = bucket) :
    ((NewMultipartUpload c ls id info).1 = some Err.ErrLedgerBucketDoesNotExist ∧
      sameData (NewMultipartUpload c ls id info).2 ls) ∧
    ((PutObjectPart c ls bucket object hash id n).1
        = Outcome.ret (some Err.ErrLedgerBucketDoesNotExist) ∧
      sameData (PutObjectPart c ls bucket object hash id n).2 ls) ∧
    ((AbortMultipartUpload ls bucket id).1 = some Err.ErrLedgerBucketDoesNotExist ∧
      sameData (AbortMultipartUpload ls bucket id).2 ls) ∧
    ((RemoveObject ls bucket object).1 = some Err.ErrLedgerBucketDoesNotExist ∧
      sameData (RemoveObject ls bucket object).2 ls) ∧
    ((putObject ls bucket object hash).1 = some Err.ErrLedgerBucketDoesNotExist ∧
      sameData (putObject ls bucket object hash).2 ls) ∧
    (ls.MultipartUploads id = none → ls.ds.data (Key.part id) = none →
      (NewMultipartUpload c ls id info).2.MultipartUploads id = none ∧
      (NewMultipartUpload c ls id info).2.ds.data (Key.part id) = none) := by
  subst hi
  rw [NewMultipartUpload_missing c ls id info hb, PutObjectPart_missing c ls _ object hash id n hb,
    AbortMultipartUpload_missing ls _ id hb, RemoveObject_missing ls _ object hb,
    putObject_missing ls _ object hash hb]
  simp only [sameData, acquire_MultipartUploads, acquire_Buckets, acquire_ds, acquire_dag,
    and_self, true_and]
  exact fun h1 h2 => ⟨h1, h2⟩

/-- Scenario B: `NewMultipartUpload("u1", (missing, o1))` and the other four operations
on the ledger `ledgerB1`, which has no bucket `missing`. -/
theorem missing_bucket_is_rejected_witness :
    ledgerB1.Buckets "missing" = none ∧
    (NewMultipartUpload plainCodec ledgerB1 "u1" (some { Bucket := "missing", Name := "o1" })).1
      = some Err.ErrLedgerBucketDoesNotExist ∧
    (NewMultipartUpload plainCodec ledgerB1 "u1"
      (some { Bucket := "missing", Name := "o1" })).2.MultipartUploads "u1" = none ∧
    (NewMultipartUpload plainCodec ledgerB1 "u1"
      (some { Bucket := "missing", Name := "o1" })).2.ds.data (Key.part "u1") = none :=
  have h := missing_bucket_is_rejected plainCodec ledgerB1 "missing" "o1" "hashA" "u1" 1
    (some { Bucket := "missing", Name := "o1" }) rfl rfl
  ⟨rfl, h.1.1, (h.2.2.2.2.2 rfl rfl).1, (h.2.2.2.2.2 rfl rfl).2⟩

/-! ## Upload creation -/

/-- C5: if `NewMultipartUpload(id, info)` returns no error then `MultipartIDExists(id)`
returns no error, `GetObjectDetails(id)` returns, with no error, a record with that id,
that object info and no parts, and the durable store holds the serialised form of that
record under the key of the id. -/
theorem new_upload_is_visible {β : Type} (c : Codec β) (ls s1 : LedgerStore β) (id : String)
    (info : Option ObjectInfo) (h : NewMultipartUpload c ls id info = (none, s1)) :
    (MultipartIDExists c s1 id).1 = none ∧
    ∃ m, (GetObjectDetails c s1 id).1 = (some m, some (Lock.partRead id), none) ∧
      m.Id = id ∧ m.ObjectInfo = info ∧ (∀ k, m.part k = none) ∧
      ∃ data, c.Marshal m = Except.ok data ∧ s1.ds.data (Key.part id) = some data := by
  have hb : ls.Buckets (ObjectInfo.GetBucket info) ≠ none := by
    intro hb
    rw [NewMultipartUpload_missing c ls id info hb] at h
    simp at h
  rw [NewMultipartUpload_existing c ls id info _ hb rfl] at h
  cases hM : c.Marshal { ObjectInfo := info, Id := id, ObjectParts := none } with
  | error e => simp [hM] at h
  | ok data =>
    simp only [hM, Datastore.Put] at h
    cases hf : ls.ds.putFault (Key.part id) with
    | some msg => simp [hf] at h
    | none =>
      simp only [hf, Prod.mk.injEq, true_and] at h
      have hres : s1.MultipartUploads id
          = some { ObjectInfo := info, Id := id, ObjectParts := none } := by
        rw [← h]
        simp
      have hl := getMultipartLoaded_resident c s1 id _ hres
      refine ⟨by rw [MultipartIDExists_eq, hl], _, ?_, rfl, rfl, ?_, data, hM, ?_⟩
      · rw [GetObjectDetails_found c s1 id _ (by rw [hl])]
      · intro k
        rfl
      · rw [← h]
        simp

/-- The creation of `u1` for `(b1, o1)` on the ledger `ledgerB1` succeeds and is visible. -/
theorem new_upload_is_visible_witness :
    (NewMultipartUpload plainCodec ledgerB1 "u1" (some { Bucket := "b1", Name := "o1" })).1 = none ∧
    (MultipartIDExists plainCodec ledgerAfterNew "u1").1 = none :=
  ⟨by decide,
    (new_upload_is_visible plainCodec ledgerB1 ledgerAfterNew "u1"
      (some { Bucket := "b1", Name := "o1" }) (Prod.ext (by decide) rfl)).1⟩

/-! ## Aborting an upload that does not exist -/

/-- The branch of `DeleteMultipartID` that answers `ErrInvalidUploadID` is never taken:
the store deletes an absent key without an error. -/
theorem DeleteMultipartID_never_invalid {β : Type} (ls : LedgerStore β) (id : String) :
    (DeleteMultipartID ls id).1 ≠ some Err.ErrInvalidUploadID := by
  rw [DeleteMultipartID_eq]
  unfold Datastore.Delete
  cases hf : ls.ds.delFault (Key.part id) <;> simp

/-- C6, on the code: on an existing bucket, for an id with no entry in the registry and
no record in the store, `AbortMultipartUpload(bucket, id)` leaves the whole state as it
was but does not answer `ErrInvalidUploadID`: it returns no error, that is success, when
the store Delete works (the store deletes an absent key without complaint, so the
not-found branch of `DeleteMultipartID` is not taken), and the failure of the store
Delete when it fails. -/
theorem abort_of_absent_upload {β : Type} (ls : LedgerStore β) (bucket id : String)
    (hb : ls.Buckets bucket ≠ none) (hm : ls.MultipartUploads id = none)
    (hk : ls.ds.data (Key.part id) = none) :
    (ls.ds.delFault (Key.part id) = none → (AbortMultipartUpload ls bucket id).1 = none) ∧
    (∀ msg, ls.ds.delFault (Key.part id) = some msg →
      (AbortMultipartUpload ls bucket id).1 = some (Err.backend msg)) ∧
    (AbortMultipartUpload ls bucket id).1 ≠ some Err.ErrInvalidUploadID ∧
    (AbortMultipartUpload ls bucket id).2 = ls := by
  have hne := DeleteMultipartID_never_invalid ls id
  rw [AbortMultipartUpload_existing ls bucket id hb]
  refine ⟨?_, ?_, hne, ?_⟩
  · intro hf
    rw [DeleteMultipartID_eq]
    simp [Datastore.Delete, hf]
  · intro msg hf
    rw [DeleteMultipartID_eq]
    simp [Datastore.Delete, hf]
  · have hu : Function.update ls.MultipartUploads id none = ls.MultipartUploads :=
      Function.update_eq_self_iff.2 hm.symm
    have hd : Function.update ls.ds.data (Key.part id) none = ls.ds.data :=
      Function.update_eq_self_iff.2 hk.symm
    rw [DeleteMultipartID_eq]
    unfold Datastore.Delete
    cases hf : ls.ds.delFault (Key.part id) with
    | some msg => simp [hu]
    | none => simp [hu, hd]

/-- The abort of `u1`, which exists neither in the registry nor in the store, through
bucket `b1`: on `ledgerB1` it returns no error, on `flakyDeleteLedger` the timeout of
the store; `ErrInvalidUploadID` is not returned. -/
theorem abort_of_absent_upload_witness :
    ledgerB1.Buckets "b1" ≠ none ∧ ledgerB1.MultipartUploads "u1" = none ∧
    ledgerB1.ds.data (Key.part "u1") = none ∧
    (AbortMultipartUpload ledgerB1 "b1" "u1").1 = none ∧
    (AbortMultipartUpload ledgerB1 "b1" "u1").2 = ledgerB1 ∧
    (AbortMultipartUpload flakyDeleteLedger "b1" "u1").1 = some (Err.backend "timeout") :=
  have h := abort_of_absent_upload ledgerB1 "b1" "u1" (Option.some_ne_none _) rfl rfl
  have h2 := abort_of_absent_upload flakyDeleteLedger "b1" "u1" (Option.some_ne_none _) rfl rfl
  ⟨Option.some_ne_none _, rfl, rfl, h.1 rfl, h.2.2.2, h2.2.1 "timeout" rfl⟩

/-! ## Not found against error in the lookup -/

/-- C7: for an id that is not resident, `getMultipartNilable` answers `(nil, nil)`
exactly when the store reports the key as not found; another failure of the store Get
is answered unchanged and bytes that do not decode are answered with the decode error,
in both cases with no record. `getMultipartLoaded` turns the `(nil, nil)` answer into
`ErrInvalidUploadID`, passes every error through unchanged and with no record, and
passes a record through. -/
theorem lookup_not_found_is_not_an_error {β : Type} (c : Codec β) (ls : LedgerStore β)
    (id : String) (hm : ls.MultipartUploads id = none) :
    ((getMultipartNilable c ls id).1 = (none, none) ↔
      ls.ds.Get (Key.part id) = Except.error Err.ErrNotFound) ∧
    (∀ e, ls.ds.Get (Key.part id) = Except.error e → e ≠ Err.ErrNotFound →
      (getMultipartNilable c ls id).1 = (none, some e)) ∧
    (∀ data e, ls.ds.Get (Key.part id) = Except.ok data → c.Unmarshal data = Except.error e →
      (getMultipartNilable c ls id).1 = (none, some e)) ∧
    ((getMultipartNilable c ls id).1 = (none, none) →
      (getMultipartLoaded c ls id).1 = (none, some Err.ErrInvalidUploadID)) ∧
    (∀ r e, (getMultipartNilable c ls id).1 = (r, some e) →
      (getMultipartLoaded c ls id).1 = (none, some e)) ∧
    (∀ m, (getMultipartNilable c ls id).1 = (some m, none) →
      (getMultipartLoaded c ls id).1 = (some m, none)) := by
  refine ⟨?_, ?_, ?_, ?_, ?_, ?_⟩
  · constructor
    · intro h
      cases hg : ls.ds.Get (Key.part id) with
      | error e =>
        by_cases he : e = Err.ErrNotFound
        · rw [he]
        · rw [getMultipartNilable_getError c ls id e hm hg he] at h
          simp at h
      | ok data =>
        cases hu : c.Unmarshal data with
        | error e =>
          rw [getMultipartNilable_decodeError c ls id data e hm hg hu] at h
          simp at h
        | ok mu =>
          rw [getMultipartNilable_decoded c ls id data mu hm hg hu] at h
          simp at h
    · intro hg
      rw [getMultipartNilable_notFound c ls id hm hg]
  · intro e hg he
    rw [getMultipartNilable_getError c ls id e hm hg he]
  · intro data e hg hu
    rw [getMultipartNilable_decodeError c ls id data e hm hg hu]
  · intro h
    unfold getMultipartLoaded
    rcases hr : getMultipartNilable c ls id with ⟨⟨m, e⟩, s⟩
    rw [hr] at h
    simp only [Prod.mk.injEq] at h
    obtain ⟨h1, h2⟩ := h
    subst h1 h2
    rfl
  · intro r e h
    unfold getMultipartLoaded
    rcases hr : getMultipartNilable c ls id with ⟨⟨m, e1⟩, s⟩
    rw [hr] at h
    simp only [Prod.mk.injEq] at h
    obtain ⟨h1, h2⟩ := h
    subst h1 h2
    cases m <;> rfl
  · intro m h
    unfold getMultipartLoaded
    rcases hr : getMultipartNilable c ls id with ⟨⟨m1, e1⟩, s⟩
    rw [hr] at h
    simp only [Prod.mk.injEq] at h
    obtain ⟨h1, h2⟩ := h
    subst h1 h2
    rfl

/-- On the ledger `ledgerB1` the id `u1` is not resident and was never written: the
lookup answers `(nil, nil)` and the checked lookup answers `ErrInvalidUploadID`. -/
theorem lookup_not_found_is_not_an_error_witness :
    ledgerB1.MultipartUploads "u1" = none ∧
    ledgerB1.ds.Get (Key.part "u1") = Except.error Err.ErrNotFound ∧
    (getMultipartNilable plainCodec ledgerB1 "u1").1 = (none, none) ∧
    (getMultipartLoaded plainCodec ledgerB1 "u1").1 = (none, some Err.ErrInvalidUploadID) :=
  have h := lookup_not_found_is_not_an_error plainCodec ledgerB1 "u1" rfl
  ⟨rfl, rfl, h.1.2 rfl, h.2.2.2.1 (h.1.2 rfl)⟩

/-! ## No rollback in `NewMultipartUpload` -/

/-- C8: on an existing bucket, if serialisation fails, or the store Put fails, with
error `e`, then `NewMultipartUpload` returns `e`, the registry maps the id to the new
empty record, a following `MultipartIDExists(id)` succeeds, and the durable store is
as it was. -/
theorem new_upload_failure_keeps_entry {β : Type} (c : Codec β) (ls : LedgerStore β)
    (id : String) (info : Option ObjectInfo) (e : Err)
    (hb : ls.Buckets (ObjectInfo.GetBucket info) ≠ none)
    (hfail : c.Marshal { ObjectInfo := info, Id := id, ObjectParts := none } = Except.error e ∨
      ∃ data, c.Marshal { ObjectInfo := info, Id := id, ObjectParts := none } = Except.ok data ∧
        (ls.ds.Put (Key.part id) data).1 = some e) :
    (NewMultipartUpload c ls id info).1 = some e ∧
    (NewMultipartUpload c ls id info).2.MultipartUploads id
      = some { ObjectInfo := info, Id := id, ObjectParts := none } ∧
    (MultipartIDExists c (NewMultipartUpload c ls id info).2 id).1 = none ∧
    (NewMultipartUpload c ls id info).2.ds = ls.ds := by
  have key : (NewMultipartUpload c ls id info).1 = some e ∧
      (NewMultipartUpload c ls id info).2.MultipartUploads id
        = some { ObjectInfo := info, Id := id, ObjectParts := none } ∧
      (NewMultipartUpload c ls id info).2.ds = ls.ds := by
    rw [NewMultipartUpload_existing c ls id info _ hb rfl]
    rcases hfail with hM | ⟨data, hM, hP⟩
    · simp [hM]
    · simp only [hM, hP, true_and]
      unfold Datastore.Put at hP ⊢
      cases hf : ls.ds.putFault (Key.part id) with
      | some msg => simp
      | none => simp [hf] at hP
  refine ⟨key.1, key.2.1, ?_, key.2.2⟩
  rw [MultipartIDExists_eq, getMultipartLoaded_resident c _ id _ key.2.1]

/-- The creation of `u1` on a store whose writes time out, and with a codec that
cannot encode: the call fails and `u1` is resident all the same. -/
theorem new_upload_failure_keeps_entry_witness :
    ((NewMultipartUpload plainCodec flakyWriteLedger "u1"
        (some { Bucket := "b1", Name := "o1" })).1 = some (Err.backend "timeout") ∧
      (MultipartIDExists plainCodec (NewMultipartUpload plainCodec flakyWriteLedger "u1"
        (some { Bucket := "b1", Name := "o1" })).2 "u1").1 = none) ∧
    ((NewMultipartUpload brokenCodec ledgerB1 "u1"
        (some { Bucket := "b1", Name := "o1" })).1 = some (Err.codec "marshal") ∧
      (MultipartIDExists brokenCodec (NewMultipartUpload brokenCodec ledgerB1 "u1"
        (some { Bucket := "b1", Name := "o1" })).2 "u1").1 = none) :=
  have h1 := new_upload_failure_keeps_entry plainCodec flakyWriteLedger "u1"
    (some { Bucket := "b1", Name := "o1" }) (Err.backend "timeout") (Option.some_ne_none _)
    (Or.inr ⟨_, rfl, rfl⟩)
  have h2 := new_upload_failure_keeps_entry brokenCodec ledgerB1 "u1"
    (some { Bucket := "b1", Name := "o1" }) (Err.codec "marshal") (Option.some_ne_none _)
    (Or.inl rfl)
  ⟨⟨h1.1, h1.2.2.1⟩, ⟨h2.1, h2.2.2.1⟩⟩

/-! ## Locks -/

/-- Writing through the pointer does not touch the locks. -/
theorem storeThrough_held {β : Type} (ls : LedgerStore β) (id : String) (m : MultipartUpload) :
    (storeThrough ls id m).held = ls.held := by
  unfold storeThrough
  split <;> rfl

/-- The operation `PutObjectPart` releases what it acquires, on every exit. -/
theorem PutObjectPart_held {β : Type} (c : Codec β) (ls : LedgerStore β)
    (b o h id : String) (n : Int) : (PutObjectPart c ls b o h id n).2.held = ls.held := by
  unfold PutObjectPart
  rw [AssertBucketExits_eq]
  cases hA : assertBucketExits ls b with
  | some e => rfl
  | none =>
    simp only [getMultipartLoaded_acquire]
    rcases getMultipartLoaded_shape c ls id with ⟨m, hm⟩ | ⟨e, he⟩
    · simp only [hm]
      cases hp : m.ObjectParts with
      | none => simp
      | some parts =>
        simp only
        split <;> simp [storeThrough_held]
    · simp only [he, release_acquire]

/-- C9, on the code: `PutObjectPart`, `AbortMultipartUpload`, `DeleteMultipartID` and
`MultipartIDExists` return with the locks held as before the call, and so does
`GetObjectDetails` on an error (with no release function) and, on success, once the
lock of its release function is released. `NewMultipartUpload` does not: after it
returns, on every path, the write lock of the bucket is held in addition to the locks
held before, and nothing releases it. -/
theorem locks_after_each_operation {β : Type} (c : Codec β) (ls : LedgerStore β)
    (b o h id : String) (n : Int) (info : Option ObjectInfo) :
    (NewMultipartUpload c ls id info).2.held
      = Lock.bucketWrite (ObjectInfo.GetBucket info) :: ls.held ∧
    (NewMultipartUpload c ls id info).2.held ≠ ls.held ∧
    (PutObjectPart c ls b o h id n).2.held = ls.held ∧
    (AbortMultipartUpload ls b id).2.held = ls.held ∧
    (DeleteMultipartID ls id).2.held = ls.held ∧
    (MultipartIDExists c ls id).2.held = ls.held ∧
    (∀ e, (GetObjectDetails c ls id).1.2.2 = some e →
      (GetObjectDetails c ls id).1.2.1 = none ∧ (GetObjectDetails c ls id).2.held = ls.held) ∧
    ((GetObjectDetails c ls id).1.2.2 = none →
      ∃ l, (GetObjectDetails c ls id).1.2.1 = some l ∧
        ((GetObjectDetails c ls id).2.release l).held = ls.held) := by
  have hnew : (NewMultipartUpload c ls id info).2.held
      = Lock.bucketWrite (ObjectInfo.GetBucket info) :: ls.held := by
    by_cases hb : ls.Buckets (ObjectInfo.GetBucket info) = none
    · rw [NewMultipartUpload_missing c ls id info hb]
      rfl
    · rw [NewMultipartUpload_existing c ls id info _ hb rfl]
      split <;> rfl
  have hdel : ∀ s : LedgerStore β, (DeleteMultipartID s id).2.held = s.held := by
    intro s
    rw [DeleteMultipartID_eq]
  refine ⟨hnew, ?_, PutObjectPart_held c ls b o h id n, ?_, hdel ls, ?_, ?_, ?_⟩
  · rw [hnew]
    intro hcontra
    have hlen := congrArg List.length hcontra
    simp at hlen
  · by_cases hb : ls.Buckets b = none
    · rw [AbortMultipartUpload_missing ls b id hb]
    · rw [AbortMultipartUpload_existing ls b id hb]
      exact hdel ls
  · rw [MultipartIDExists_eq]
  · intro e he
    rcases getMultipartLoaded_shape c ls id with ⟨m, hm⟩ | ⟨e1, he1⟩
    · rw [GetObjectDetails_found c ls id m hm] at he
      simp at he
    · rw [GetObjectDetails_error c ls id e1 he1]
      exact ⟨rfl, rfl⟩
  · intro he
    rcases getMultipartLoaded_shape c ls id with ⟨m, hm⟩ | ⟨e1, he1⟩
    · rw [GetObjectDetails_found c ls id m hm]
      exact ⟨Lock.partRead id, rfl, by simp⟩
    · rw [GetObjectDetails_error c ls id e1 he1] at he
      simp at he

/-! ## Writing an object -/

/-- C10: if `putObject(ctx, b, o, h)` returns no error then bucket `b` exists, and with
`b1` its entry after the cache was ensured loaded, the object map of the bucket in
memory maps `o` to `h` and every other name to what it mapped to in `b1` (a nil map
maps nothing), the rest of the entry is that of `b1`, and the bucket record handed to
`saveBucket`, which is the record then persisted, is that updated record. -/
theorem putObject_inserts_and_saves {β : Type} (ls s1 : LedgerStore β)
    (bucket object objHash : String) (hp : putObject ls bucket object objHash = (none, s1)) :
    ∃ b b1 r, ls.Buckets bucket = some b ∧ b.ensureCache ls.dag = Except.ok b1 ∧
      r.object object = some objHash ∧
      (∀ o, o ≠ object → r.object o = b1.Bucket.object o) ∧
      r.Name = b1.Bucket.Name ∧
      s1.Buckets bucket = some { b1 with Bucket := r } ∧
      putObject ls bucket object objHash
        = saveBucket (setBucket ls bucket { b1 with Bucket := r }) bucket r ∧
      s1.dag.saved bucket = some r := by
  cases hb : ls.Buckets bucket with
  | none =>
    rw [putObject_missing ls bucket object objHash hb] at hp
    simp at hp
  | some b =>
    cases he : b.ensureCache ls.dag with
    | error e =>
      simp [putObject, getBucket, hb, he] at hp
    | ok b1 =>
      obtain ⟨r, hr⟩ : ∃ r : Bucket, r =
          { b1.Bucket with Objects := some (Function.update
              (match b1.Bucket.Objects with
                | none => fun _ => none
                | some f => f) object (some objHash)) } := ⟨_, rfl⟩
      have hput : putObject ls bucket object objHash
          = saveBucket (setBucket ls bucket { b1 with Bucket := r }) bucket r := by
        rw [hr]
        simp [putObject, getBucket, hb, he]
      have hs1 : s1 = { setBucket ls bucket { b1 with Bucket := r } with
          dag := { ls.dag with saved := Function.update ls.dag.saved bucket (some r) } } := by
        rw [hput] at hp
        unfold saveBucket at hp
        split at hp
        · simp at hp
        · simp only [Prod.mk.injEq, true_and] at hp
          rw [← hp]
          rfl
      refine ⟨b, b1, r, rfl, he, ?_, ?_, ?_, ?_, hput, ?_⟩
      · rw [hr]
        simp [Bucket.object]
      · intro o ho
        rw [hr]
        cases hO : b1.Bucket.Objects <;> simp [Bucket.object, hO, Function.update_noteq ho]
      · rw [hr]
      · rw [hs1]
        simp [setBucket]
      · rw [hs1]
        simp

/-- Writing object `o1` with hash `hashA` into bucket `b1` of `ledgerUnloaded`, whose
object map is nil before the call. -/
theorem putObject_inserts_and_saves_witness :
    (putObject ledgerUnloaded "b1" "o1" "hashA").1 = none ∧
    ∃ b b1 r, ledgerUnloaded.Buckets "b1" = some b ∧
      b.ensureCache ledgerUnloaded.dag = Except.ok b1 ∧
      r.object "o1" = some "hashA" ∧
      (∀ o, o ≠ "o1" → r.object o = b1.Bucket.object o) ∧
      r.Name = b1.Bucket.Name ∧
      (putObject ledgerUnloaded "b1" "o1" "hashA").2.Buckets "b1" = some { b1 with Bucket := r } ∧
      putObject ledgerUnloaded "b1" "o1" "hashA"
        = saveBucket (setBucket ledgerUnloaded "b1" { b1 with Bucket := r }) "b1" r ∧
      (putObject ledgerUnloaded "b1" "o1" "hashA").2.dag.saved "b1" = some r :=
  ⟨by decide,
    putObject_inserts_and_saves ledgerUnloaded (putObject ledgerUnloaded "b1" "o1" "hashA").2
      "b1" "o1" "hashA" (Prod.ext (by decide) rfl)⟩

/-! ## Failed object writes -/

/-- The operation `putObject` on a bucket of the registry whose cache loads: `r` is
the record with the object written, and the call is the save of `r`. -/
theorem putObject_existing {β : Type} (ls : LedgerStore β) (bucket object objHash : String)
    (b b1 : LedgerBucketEntry) (r : Bucket)
    (hb : ls.Buckets bucket = some b) (he : b.ensureCache ls.dag = Except.ok b1)
    (hr : r =
      { b1.Bucket with Objects := some (Function.update
          (match b1.Bucket.Objects with
            | none => fun _ => none
            | some f => f) object (some objHash)) }) :
    putObject ls bucket object objHash
      = saveBucket (setBucket ls bucket { b1 with Bucket := r }) bucket r ∧
    r.object object = some objHash ∧
    (∀ o, o ≠ object → r.object o = b1.Bucket.object o) := by
  refine ⟨?_, ?_, ?_⟩
  · rw [hr]
    simp [putObject, getBucket, hb, he]
  · rw [hr]
    simp [Bucket.object]
  · intro o ho
    rw [hr]
    cases hO : b1.Bucket.Objects <;> simp [Bucket.object, hO, Function.update_noteq ho]

/-- The operation `putObject` on a bucket of the registry whose cache does not load. -/
theorem putObject_cacheError {β : Type} (ls : LedgerStore β) (bucket object objHash : String)
    (b : LedgerBucketEntry) (e : Err)
    (hb : ls.Buckets bucket = some b) (he : b.ensureCache ls.dag = Except.error e) :
    putObject ls bucket object objHash = (some e, ls) := by
  simp [putObject, getBucket, hb, he]

/-- C11, as the code has it: if `putObject` returns an error, then either the error
comes from the bucket lookup or from `ensureCache` and the whole state, the object map
of the bucket included, is as before the call; or it comes from saving the bucket
record, and then the in-memory object map has been loaded and already maps the object
to the new hash (every other name as after the load): the write is not undone. -/
theorem putObject_failure_cases {β : Type} (ls s1 : LedgerStore β)
    (bucket object objHash : String) (e : Err)
    (h : putObject ls bucket object objHash = (some e, s1)) :
    (s1 = ls ∧ (ls.Buckets bucket = none ∨
      ∃ b, ls.Buckets bucket = some b ∧ b.ensureCache ls.dag = Except.error e)) ∨
    (∃ b b1 r msg, ls.Buckets bucket = some b ∧ b.ensureCache ls.dag = Except.ok b1 ∧
      ls.dag.saveFault bucket = some msg ∧ e = Err.backend msg ∧
      s1.Buckets bucket = some { b1 with Bucket := r } ∧
      r.object object = some objHash ∧
      (∀ o, o ≠ object → r.object o = b1.Bucket.object o) ∧
      s1.dag = ls.dag) := by
  cases hb : ls.Buckets bucket with
  | none =>
    rw [putObject_missing ls bucket object objHash hb] at h
    simp only [Prod.mk.injEq] at h
    exact Or.inl ⟨h.2.symm, Or.inl rfl⟩
  | some b =>
    cases he : b.ensureCache ls.dag with
    | error e1 =>
      rw [putObject_cacheError ls bucket object objHash b e1 hb he] at h
      simp only [Prod.mk.injEq, Option.some.injEq] at h
      obtain ⟨h1, h2⟩ := h
      subst h1
      exact Or.inl ⟨h2.symm, Or.inr ⟨b, rfl, he⟩⟩
    | ok b1 =>
      obtain ⟨r, hr⟩ : ∃ r : Bucket, r =
          { b1.Bucket with Objects := some (Function.update
              (match b1.Bucket.Objects with
                | none => fun _ => none
                | some f => f) object (some objHash)) } := ⟨_, rfl⟩
      obtain ⟨hput, ho, hrest⟩ := putObject_existing ls bucket object objHash b b1 r hb he hr
      rw [hput] at h
      unfold saveBucket at h
      cases hf : ls.dag.saveFault bucket with
      | none =>
        have hf1 : (setBucket ls bucket { b1 with Bucket := r }).dag.saveFault bucket = none := hf
        simp [hf1] at h
      | some msg =>
        have hf1 : (setBucket ls bucket { b1 with Bucket := r }).dag.saveFault bucket
            = some msg := hf
        simp only [hf1, Prod.mk.injEq, Option.some.injEq] at h
        obtain ⟨h1, h2⟩ := h
        refine Or.inr ⟨b, b1, r, msg, rfl, he, rfl, h1.symm, ?_, ho, hrest, ?_⟩
        · rw [← h2]
          simp [setBucket]
        · rw [← h2]
          rfl

/-- A cancelled save on the ledger `flakySaveLedger`: the call fails and `o1` is in
the object map of `b1` all the same. -/
theorem putObject_failure_cases_witness :
    (putObject flakySaveLedger "b1" "o1" "hashA").1 = some (Err.backend "context canceled") ∧
    (((putObject flakySaveLedger "b1" "o1" "hashA").2 = flakySaveLedger ∧
      (flakySaveLedger.Buckets "b1" = none ∨
        ∃ b, flakySaveLedger.Buckets "b1" = some b ∧
          b.ensureCache flakySaveLedger.dag = Except.error (Err.backend "context canceled"))) ∨
    (∃ b b1 r msg, flakySaveLedger.Buckets "b1" = some b ∧
      b.ensureCache flakySaveLedger.dag = Except.ok b1 ∧
      flakySaveLedger.dag.saveFault "b1" = some msg ∧
      Err.backend "context canceled" = Err.backend msg ∧
      (putObject flakySaveLedger "b1" "o1" "hashA").2.Buckets "b1" = some { b1 with Bucket := r } ∧
      r.object "o1" = some "hashA" ∧
      (∀ o, o ≠ "o1" → r.object o = b1.Bucket.object o) ∧
      (putObject flakySaveLedger "b1" "o1" "hashA").2.dag = flakySaveLedger.dag)) :=
  ⟨by decide,
    putObject_failure_cases flakySaveLedger (putObject flakySaveLedger "b1" "o1" "hashA").2
      "b1" "o1" "hashA" (Err.backend "context canceled") (Prod.ext (by decide) rfl)⟩

/-- C11 as stated fails when the save is cancelled: on `flakySaveLedger` the object
map of `b1` has no `o1`, `putObject("b1", "o1", "hashA")` returns the cancellation, and
afterwards the object map of `b1` in memory maps `o1` to `hashA`. -/
theorem putObject_failed_save_keeps_write :
    (flakySaveLedger.Buckets "b1").bind (fun b => b.Bucket.object "o1") = none ∧
    (putObject flakySaveLedger "b1" "o1" "hashA").1 = some (Err.backend "context canceled") ∧
    ((putObject flakySaveLedger "b1" "o1" "hashA").2.Buckets "b1").bind
      (fun b => b.Bucket.object "o1") = some "hashA" := by
  decide

/-! ## Removing an object -/

/-- The operation `RemoveObject` on a bucket of the registry whose cache loads. -/
theorem RemoveObject_existing {β : Type} (ls : LedgerStore β) (bucket object : String)
    (b b1 : LedgerBucketEntry)
    (hb : ls.Buckets bucket = some b) (he : b.ensureCache ls.dag = Except.ok b1) :
    RemoveObject ls bucket object
      = (none, setBucket ls bucket { b1 with Bucket := { b1.Bucket with
          Objects := b1.Bucket.Objects.map (fun f => Function.update f object none) } }) := by
  simp [RemoveObject, getBucket, hb, he]

/-- The operation `RemoveObject` on a bucket of the registry whose cache does not load. -/
theorem RemoveObject_cacheError {β : Type} (ls : LedgerStore β) (bucket object : String)
    (b : LedgerBucketEntry) (e : Err)
    (hb : ls.Buckets bucket = some b) (he : b.ensureCache ls.dag = Except.error e) :
    RemoveObject ls bucket object = (some e, ls) := by
  simp [RemoveObject, getBucket, hb, he]

/-- Deleting a name from an object map: the name is gone, the others stay. -/
theorem object_after_delete (b : Bucket) (object o : String) :
    Bucket.object { b with Objects := b.Objects.map (fun f => Function.update f object none) } o
      = if o = object then none else b.object o := by
  cases hO : b.Objects with
  | none => simp [Bucket.object, hO]
  | some f =>
    by_cases ho : o = object
    · subst ho
      simp [Bucket.object, hO]
    · simp [Bucket.object, hO, ho, Function.update_noteq ho]

/-- C12: if `RemoveObject(ctx, b, o)` returns no error then bucket `b` exists, and with
`b1` its entry after the cache was ensured loaded, `o` is absent from the object map of
the bucket in memory and every other name maps to what it mapped to in `b1`. Removing a
name that `b1` does not map succeeds and leaves the entry equal to `b1` (and the whole
state as it was when the cache was already loaded). If `ensureCache` fails, its error is
returned and the state is as before. -/
theorem removeObject_removes_one {β : Type} (ls : LedgerStore β) (bucket object : String) :
    (∀ s1, RemoveObject ls bucket object = (none, s1) →
      ∃ b b1 r, ls.Buckets bucket = some b ∧ b.ensureCache ls.dag = Except.ok b1 ∧
        s1.Buckets bucket = some { b1 with Bucket := r } ∧
        r.object object = none ∧ (∀ o, o ≠ object → r.object o = b1.Bucket.object o)) ∧
    (∀ b b1, ls.Buckets bucket = some b → b.ensureCache ls.dag = Except.ok b1 →
      b1.Bucket.object object = none →
        (RemoveObject ls bucket object).1 = none ∧
        (RemoveObject ls bucket object).2 = setBucket ls bucket b1 ∧
        (b.loaded = true → (RemoveObject ls bucket object).2 = ls)) ∧
    (∀ b e, ls.Buckets bucket = some b → b.ensureCache ls.dag = Except.error e →
      RemoveObject ls bucket object = (some e, ls)) := by
  refine ⟨?_, ?_, ?_⟩
  · intro s1 h
    cases hb : ls.Buckets bucket with
    | none =>
      rw [RemoveObject_missing ls bucket object hb] at h
      simp at h
    | some b =>
      cases he : b.ensureCache ls.dag with
      | error e =>
        rw [RemoveObject_cacheError ls bucket object b e hb he] at h
        simp at h
      | ok b1 =>
        rw [RemoveObject_existing ls bucket object b b1 hb he] at h
        simp only [Prod.mk.injEq, true_and] at h
        refine ⟨b, b1, { b1.Bucket with
          Objects := b1.Bucket.Objects.map (fun f => Function.update f object none) },
          rfl, he, ?_, ?_, ?_⟩
        · rw [← h]
          simp [setBucket]
        · rw [object_after_delete]
          simp
        · intro o ho
          rw [object_after_delete]
          simp [ho]
  · intro b b1 hb he hno
    have hsame : ({ b1 with Bucket := { b1.Bucket with
        Objects := b1.Bucket.Objects.map (fun f => Function.update f object none) } }
          : LedgerBucketEntry) = b1 := by
      rcases b1 with ⟨⟨name, objs⟩, loaded⟩
      cases objs with
      | none => rfl
      | some f =>
        have hf : f object = none := hno
        have hu : Function.update f object none = f := Function.update_eq_self_iff.2 hf.symm
        simp [hu]
    rw [RemoveObject_existing ls bucket object b b1 hb he, hsame]
    refine ⟨rfl, rfl, ?_⟩
    intro hl
    have hb1 : b1 = b := by
      unfold LedgerBucketEntry.ensureCache at he
      simp only [hl, if_true] at he
      exact (Except.ok.inj he).symm
    rw [hb1]
    rcases ls with ⟨B, M, d, g, hd⟩
    have hu : Function.update B bucket (some b) = B := Function.update_eq_self_iff.2 hb.symm
    simp only [setBucket, hu]
  · intro b e hb he
    exact RemoveObject_cacheError ls bucket object b e hb he

/-! ## `RemoveObject` and persistence -/

/-- C18: `RemoveObject` leaves the durable store and the content backend, and with it
every persisted bucket record, exactly as they were, on every path; so a name that the
persisted record of the bucket contained before a successful `RemoveObject` is still in
it afterwards, also when it has gone from the object map in memory. A successful
`putObject`, in contrast, leaves the record it wrote to as the persisted record. -/
theorem removeObject_is_memory_only {β : Type} (ls : LedgerStore β)
    (bucket object objHash : String) :
    (RemoveObject ls bucket object).2.ds = ls.ds ∧
    (RemoveObject ls bucket object).2.dag = ls.dag ∧
    (∀ r v, ls.dag.saved bucket = some r → r.object object = some v →
      (RemoveObject ls bucket object).1 = none →
        (RemoveObject ls bucket object).2.dag.saved bucket = some r ∧
        ((RemoveObject ls bucket object).2.Buckets bucket).bind
          (fun b => b.Bucket.object object) = none) ∧
    ((putObject ls bucket object objHash).1 = none →
      ∃ r, (putObject ls bucket object objHash).2.dag.saved bucket = some r ∧
        r.object object = some objHash) := by
  have hframe : (RemoveObject ls bucket object).2.ds = ls.ds ∧
      (RemoveObject ls bucket object).2.dag = ls.dag := by
    cases hb : ls.Buckets bucket with
    | none => rw [RemoveObject_missing ls bucket object hb]; exact ⟨rfl, rfl⟩
    | some b =>
      cases he : b.ensureCache ls.dag with
      | error e => rw [RemoveObject_cacheError ls bucket object b e hb he]; exact ⟨rfl, rfl⟩
      | ok b1 => rw [RemoveObject_existing ls bucket object b b1 hb he]; exact ⟨rfl, rfl⟩
  refine ⟨hframe.1, hframe.2, ?_, ?_⟩
  · intro r v hr _ hok
    refine ⟨by rw [hframe.2]; exact hr, ?_⟩
    cases hb : ls.Buckets bucket with
    | none =>
      rw [RemoveObject_missing ls bucket object hb] at hok
      simp at hok
    | some b =>
      cases he : b.ensureCache ls.dag with
      | error e =>
        rw [RemoveObject_cacheError ls bucket object b e hb he] at hok
        simp at hok
      | ok b1 =>
        rw [RemoveObject_existing ls bucket object b b1 hb he]
        simp only [setBucket, Function.update_same, Option.some_bind]
        rw [object_after_delete]
        simp
  · intro hok
    cases hb : ls.Buckets bucket with
    | none =>
      rw [putObject_missing ls bucket object objHash hb] at hok
      simp at hok
    | some b =>
      cases he : b.ensureCache ls.dag with
      | error e =>
        rw [putObject_cacheError ls bucket object objHash b e hb he] at hok
        simp at hok
      | ok b1 =>
        obtain ⟨r, hr⟩ : ∃ r : Bucket, r =
            { b1.Bucket with Objects := some (Function.update
                (match b1.Bucket.Objects with
                  | none => fun _ => none
                  | some f => f) object (some objHash)) } := ⟨_, rfl⟩
        obtain ⟨hput, ho, -⟩ := putObject_existing ls bucket object objHash b b1 r hb he hr
        rw [hput] at hok ⊢
        unfold saveBucket at hok ⊢
        cases hf : (setBucket ls bucket { b1 with Bucket := r }).dag.saveFault bucket with
        | some msg => simp [hf] at hok
        | none =>
          refine ⟨r, ?_, ho⟩
          simp

/-! ## The map-structural lock and the store calls -/

theorem storeCallWhileHeld_append (l : Lock) (es1 es2 : List Event) (held : List Lock) :
    storeCallWhileHeld l held (es1 ++ es2)
      = (storeCallWhileHeld l held es1 || storeCallWhileHeld l (heldAfter held es1) es2) := by
  induction es1 generalizing held with
  | nil => simp [storeCallWhileHeld, heldAfter]
  | cons e es ih =>
    cases e <;> simp [storeCallWhileHeld, heldAfter, ih, Bool.or_assoc]

theorem heldAfter_append (es1 es2 : List Event) (held : List Lock) :
    heldAfter held (es1 ++ es2) = heldAfter (heldAfter held es1) es2 := by
  induction es1 generalizing held with
  | nil => simp [heldAfter]
  | cons e es ih =>
    cases e <;> simp [heldAfter, ih]

/-- The lookup leaves the locks as they were. -/
theorem heldAfter_getMultipartNilableEvents {β : Type} (ls : LedgerStore β) (id : String)
    (held : List Lock) : heldAfter held (getMultipartNilableEvents ls id) = held := by
  unfold getMultipartNilableEvents
  cases ls.MultipartUploads id <;> simp [heldAfter]

/-- The lookup makes a store call under the map-structural lock exactly on a miss. -/
theorem storeCallWhileHeld_getMultipartNilableEvents {β : Type} (ls : LedgerStore β)
    (id : String) (held : List Lock) (hp : Lock.pmap ∉ held) :
    storeCallWhileHeld Lock.pmap held (getMultipartNilableEvents ls id) = true ↔
      ls.MultipartUploads id = none := by
  unfold getMultipartNilableEvents
  cases ls.MultipartUploads id <;> simp [storeCallWhileHeld, hp]

/-- The events of each operation leave the locks as the operation leaves them. -/
theorem events_agree_on_locks {β : Type} (c : Codec β) (ls : LedgerStore β)
    (b h id : String) (o : String) (n : Int) (info : Option ObjectInfo) :
    heldAfter ls.held (getMultipartNilableEvents ls id) = (getMultipartNilable c ls id).2.held ∧
    heldAfter ls.held (DeleteMultipartIDEvents id) = (DeleteMultipartID ls id).2.held ∧
    heldAfter ls.held (NewMultipartUploadEvents c ls id info)
      = (NewMultipartUpload c ls id info).2.held ∧
    heldAfter ls.held (PutObjectPartEvents c ls b h id n)
      = (PutObjectPart c ls b o h id n).2.held ∧
    heldAfter ls.held (GetObjectDetailsEvents c ls id) = (GetObjectDetails c ls id).2.held := by
  refine ⟨?_, ?_, ?_, ?_, ?_⟩
  · rw [heldAfter_getMultipartNilableEvents, getMultipartNilable_snd]
  · rw [DeleteMultipartID_eq]
    simp [DeleteMultipartIDEvents, heldAfter]
  · by_cases hb : ls.Buckets (ObjectInfo.GetBucket info) = none
    · rw [NewMultipartUpload_missing c ls id info hb]
      simp [NewMultipartUploadEvents, assertBucketExits_missing ls _ hb, heldAfter]
    · rw [NewMultipartUpload_existing c ls id info _ hb rfl]
      unfold NewMultipartUploadEvents
      simp only [(assertBucketExits_eq_none ls _).2 hb]
      cases c.Marshal { ObjectInfo := info, Id := id, ObjectParts := none } <;>
        simp [heldAfter]
  · rw [PutObjectPart_held]
    unfold PutObjectPartEvents AssertBucketExitsEvents getMultipartNilableEvents
    cases assertBucketExits ls b with
    | some e => simp [heldAfter]
    | none =>
      cases hmu : ls.MultipartUploads id <;>
      · rcases getMultipartLoaded_shape c ls id with ⟨m, hm⟩ | ⟨e, he⟩
        · simp only [hm]
          cases m.ObjectParts with
          | none => simp [heldAfter]
          | some parts =>
            simp only
            split <;> simp [heldAfter]
        · simp [he, heldAfter]
  · unfold GetObjectDetailsEvents getMultipartNilableEvents
    cases hmu : ls.MultipartUploads id <;>
    · rcases getMultipartLoaded_shape c ls id with ⟨m, hm⟩ | ⟨e, he⟩
      · rw [GetObjectDetails_found c ls id m hm]
        simp [hm, heldAfter]
      · rw [GetObjectDetails_error c ls id e he]
        simp [he, heldAfter]

/-- C13, as the code has it: started without the map-structural lock, `NewMultipartUpload`
makes no store call while that lock is held (its `Put` comes after `Unlock`), whereas
`DeleteMultipartID`, and `AbortMultipartUpload` on an existing bucket, make the store
`Delete` while it is held, and `getMultipartNilable` and its callers `MultipartIDExists`,
`GetObjectDetails` and `PutObjectPart` (on an existing bucket) make the store `Get` while
it is held exactly when the id is not resident in memory. -/
theorem pmap_lock_and_store_calls {β : Type} (c : Codec β) (ls : LedgerStore β)
    (b h id : String) (n : Int) (info : Option ObjectInfo) (hp : Lock.pmap ∉ ls.held) :
    storeCallWhileHeld Lock.pmap ls.held (NewMultipartUploadEvents c ls id info) = false ∧
    storeCallWhileHeld Lock.pmap ls.held (DeleteMultipartIDEvents id) = true ∧
    (ls.Buckets b ≠ none →
      storeCallWhileHeld Lock.pmap ls.held (AbortMultipartUploadEvents ls b id) = true) ∧
    (storeCallWhileHeld Lock.pmap ls.held (getMultipartNilableEvents ls id) = true ↔
      ls.MultipartUploads id = none) ∧
    (storeCallWhileHeld Lock.pmap ls.held (MultipartIDExistsEvents ls id) = true ↔
      ls.MultipartUploads id = none) ∧
    (storeCallWhileHeld Lock.pmap ls.held (GetObjectDetailsEvents c ls id) = true ↔
      ls.MultipartUploads id = none) ∧
    (ls.Buckets b ≠ none →
      (storeCallWhileHeld Lock.pmap ls.held (PutObjectPartEvents c ls b h id n) = true ↔
        ls.MultipartUploads id = none)) := by
  have hnil := storeCallWhileHeld_getMultipartNilableEvents ls id
  refine ⟨?_, ?_, ?_, hnil ls.held hp, hnil ls.held hp, ?_, ?_⟩
  · unfold NewMultipartUploadEvents
    cases assertBucketExits ls (ObjectInfo.GetBucket info) with
    | some e => simp [storeCallWhileHeld]
    | none =>
      cases c.Marshal { ObjectInfo := info, Id := id, ObjectParts := none } <;>
        simp [storeCallWhileHeld, hp]
  · simp [DeleteMultipartIDEvents, storeCallWhileHeld]
  · intro hb
    simp [AbortMultipartUploadEvents, AssertBucketExitsEvents, DeleteMultipartIDEvents,
      (assertBucketExits_eq_none ls b).2 hb, storeCallWhileHeld]
  · unfold GetObjectDetailsEvents getMultipartNilableEvents
    cases hmu : ls.MultipartUploads id <;>
      cases (getMultipartLoaded c ls id).1.2 <;> simp [storeCallWhileHeld, hp]
  · intro hb
    unfold PutObjectPartEvents AssertBucketExitsEvents getMultipartNilableEvents
    simp only [(assertBucketExits_eq_none ls b).2 hb]
    cases hmu : ls.MultipartUploads id <;>
    · rcases getMultipartLoaded_shape c ls id with ⟨m, hm⟩ | ⟨e, he⟩
      · simp only [hm]
        cases m.ObjectParts with
        | none => simp [storeCallWhileHeld, hp]
        | some parts =>
          simp only
          split <;> simp [storeCallWhileHeld, hp]
      · simp [he, storeCallWhileHeld, hp]

/-- On the ledger `ledgerB1`, where `u1` is not resident and no lock is held: the
lookup of `u1` and its deletion call the store under the map-structural lock, the
creation of `u1` does not. -/
theorem pmap_lock_and_store_calls_witness :
    Lock.pmap ∉ ledgerB1.held ∧
    storeCallWhileHeld Lock.pmap ledgerB1.held
      (NewMultipartUploadEvents plainCodec ledgerB1 "u1" (some { Bucket := "b1", Name := "o1" }))
        = false ∧
    storeCallWhileHeld Lock.pmap ledgerB1.held (DeleteMultipartIDEvents "u1") = true ∧
    storeCallWhileHeld Lock.pmap ledgerB1.held (getMultipartNilableEvents ledgerB1 "u1") = true :=
  have h := pmap_lock_and_store_calls plainCodec ledgerB1 "b1" "hashA" "u1" 1
    (some { Bucket := "b1", Name := "o1" }) (by decide)
  ⟨by decide, h.1, h.2.1, h.2.2.2.1.2 rfl⟩

/-- C13 as stated fails: on the ledger `ledgerB1`, with no lock held at the start, the
lookup of the non-resident id `u1` makes its store `Get`, and the deletion of `u1` its
store `Delete`, while the map-structural lock is held. -/
theorem pmap_lock_held_across_store_call :
    ledgerB1.held = [] ∧
    getMultipartNilableEvents ledgerB1 "u1"
      = [Event.acquire Lock.pmap, Event.dsGet (Key.part "u1"), Event.release Lock.pmap] ∧
    storeCallWhileHeld Lock.pmap [] (getMultipartNilableEvents ledgerB1 "u1") = true ∧
    storeCallWhileHeld Lock.pmap [] (DeleteMultipartIDEvents "u1") = true := by
  decide

/-! ## The bucket argument of the multipart operations -/

/-- C17: for any two existing buckets `b1` and `b2` and any object names,
`AbortMultipartUpload(b1, id)` and `AbortMultipartUpload(b2, id)` return the same result
and the same final state, which are those of `DeleteMultipartID(id)`, and
`PutObjectPart(b1, o1, h, id, n)` and `PutObjectPart(b2, o2, h, id, n)` return the same
result and the same final state: the bucket and object arguments are used for the
existence check only and are never compared with the object info of the record. -/
theorem bucket_argument_is_only_checked {β : Type} (c : Codec β) (ls : LedgerStore β)
    (b1 b2 o1 o2 h id : String) (n : Int)
    (hb1 : ls.Buckets b1 ≠ none) (hb2 : ls.Buckets b2 ≠ none) :
    AbortMultipartUpload ls b1 id = AbortMultipartUpload ls b2 id ∧
    AbortMultipartUpload ls b1 id = DeleteMultipartID ls id ∧
    PutObjectPart c ls b1 o1 h id n = PutObjectPart c ls b2 o2 h id n := by
  refine ⟨?_, AbortMultipartUpload_existing ls b1 id hb1, ?_⟩
  · rw [AbortMultipartUpload_existing ls b1 id hb1, AbortMultipartUpload_existing ls b2 id hb2]
  · unfold PutObjectPart
    rw [AssertBucketExits_eq, AssertBucketExits_eq]
    simp only [(assertBucketExits_eq_none ls b1).2 hb1, (assertBucketExits_eq_none ls b2).2 hb2]

/-- The upload `u1` of `ledgerTwoBuckets` was created for bucket `b1`; it is extended
and aborted through bucket `b2` with the results that bucket `b1` gives. -/
theorem bucket_argument_is_only_checked_witness :
    ledgerTwoBuckets.Buckets "b1" ≠ none ∧ ledgerTwoBuckets.Buckets "b2" ≠ none ∧
    (ledgerTwoBuckets.MultipartUploads "u1").map (fun m => m.ObjectInfo)
      = some (some { Bucket := "b1", Name := "o1" }) ∧
    (AbortMultipartUpload ledgerTwoBuckets "b2" "u1").1 = none ∧
    (PutObjectPart plainCodec ledgerTwoBuckets "b2" "other" "hashA" "u1" 1).1
      = Outcome.ret none ∧
    AbortMultipartUpload ledgerTwoBuckets "b1" "u1" = AbortMultipartUpload ledgerTwoBuckets "b2" "u1" ∧
    PutObjectPart plainCodec ledgerTwoBuckets "b1" "o1" "hashA" "u1" 1
      = PutObjectPart plainCodec ledgerTwoBuckets "b2" "other" "hashA" "u1" 1 :=
  have h := bucket_argument_is_only_checked plainCodec ledgerTwoBuckets "b1" "b2" "o1" "other"
    "hashA" "u1" 1 (Option.some_ne_none _) (Option.some_ne_none _)
  ⟨Option.some_ne_none _, Option.some_ne_none _, by decide, by decide, by decide, h.1, h.2.2⟩

/-! ## What `PutObjectPart` persists -/

/-- Writing through the pointer commutes with taking a lock. -/
theorem storeThrough_acquire {β : Type} (ls : LedgerStore β) (l : Lock) (id : String)
    (m : MultipartUpload) :
    storeThrough (ls.acquire l) id m = (storeThrough ls id m).acquire l := by
  unfold storeThrough
  simp only [acquire_MultipartUploads]
  cases ls.MultipartUploads id <;> rfl

/-- Writing through the pointer touches neither the store nor the buckets. -/
theorem storeThrough_ds {β : Type} (ls : LedgerStore β) (id : String) (m : MultipartUpload) :
    (storeThrough ls id m).ds = ls.ds ∧ (storeThrough ls id m).Buckets = ls.Buckets := by
  unfold storeThrough
  cases ls.MultipartUploads id <;> exact ⟨rfl, rfl⟩

/-- Writing through the pointer keeps the key set of the registry. -/
theorem storeThrough_isSome {β : Type} (ls : LedgerStore β) (id : String) (m : MultipartUpload)
    (k : String) :
    ((storeThrough ls id m).MultipartUploads k).isSome = (ls.MultipartUploads k).isSome := by
  unfold storeThrough
  cases hm : ls.MultipartUploads id with
  | none => rfl
  | some mu =>
    by_cases hk : k = id
    · subst hk
      simp [hm]
    · simp [Function.update_noteq hk]

/-- A successful `PutObjectPart`: the lookup found a record `m` with an allocated part
map, the record with the part written was encoded, and its encoding was stored. -/
theorem PutObjectPart_ok {β : Type} (c : Codec β) (ls s1 : LedgerStore β)
    (b o h id : String) (n : Int)
    (hc : PutObjectPart c ls b o h id n = (Outcome.ret none, s1)) :
    ∃ m parts data, (getMultipartLoaded c ls id).1 = (some m, none) ∧
      m.ObjectParts = some parts ∧ c.Marshal (m.withPart parts n h) = Except.ok data ∧
      s1 = { storeThrough ls id (m.withPart parts n h) with
        ds := { ls.ds with data := Function.update ls.ds.data (Key.part id) (some data) } } := by
  have hb : ls.Buckets b ≠ none := by
    intro hb
    rw [PutObjectPart_missing c ls b o h id n hb] at hc
    simp at hc
  unfold PutObjectPart at hc
  rw [AssertBucketExits_eq] at hc
  simp only [(assertBucketExits_eq_none ls b).2 hb, getMultipartLoaded_acquire] at hc
  rcases getMultipartLoaded_shape c ls id with ⟨m, hm⟩ | ⟨e, he⟩
  · simp only [hm] at hc
    cases hp : m.ObjectParts with
    | none => simp [hp] at hc
    | some parts =>
      simp only [hp] at hc
      have hw : ({ m with ObjectParts := some (Function.update parts n
          (some { Number := n, DataHash := h })) } : MultipartUpload) = m.withPart parts n h := rfl
      rw [hw] at hc
      cases hM : c.Marshal (m.withPart parts n h) with
      | error e => simp [hM] at hc
      | ok data =>
        simp only [hM, storeThrough_acquire, acquire_ds, Datastore.Put,
          (storeThrough_ds ls id (m.withPart parts n h)).1] at hc
        cases hf : ls.ds.putFault (Key.part id) with
        | some msg => simp [hf] at hc
        | none =>
          simp only [hf, Prod.mk.injEq, true_and] at hc
          refine ⟨m, parts, data, hm, hp, hM, ?_⟩
          rw [← hc]
          rcases hst : storeThrough ls id (m.withPart parts n h) with ⟨B, M, d, g, hd⟩
          simp [LedgerStore.acquire, LedgerStore.release]
  · simp [he] at hc

/-- The checked lookup of a non-resident id finds a record only if the store read works. -/
theorem getMultipartLoaded_found_getFault {β : Type} (c : Codec β) (ls : LedgerStore β)
    (id : String) (m : MultipartUpload) (hm : ls.MultipartUploads id = none)
    (hl : (getMultipartLoaded c ls id).1 = (some m, none)) :
    ls.ds.getFault (Key.part id) = none := by
  cases hf : ls.ds.getFault (Key.part id) with
  | none => rfl
  | some msg =>
    rw [getMultipartLoaded_readFault c ls id msg hm hf] at hl
    simp at hl

/-- C14: if `PutObjectPart` returns no error then the lookup had found a record `m`, and
the value in the durable store under the key of the id is the serialisation of the
complete updated record `m1` (the id and object info of `m`, every part of `m` other
than `n`, and part `n` equal to `(n, h)`). A following `GetObjectDetails(id)` on an id
that is not resident answers what decoding that stored value gives, the record or the
decode error; on a resident id it answers `m1` itself. So with a codec that decodes the
encoding of a record with at least one part back to that record, decoding the stored
value gives `m1`, the record that `GetObjectDetails(id)` returns. -/
theorem putObjectPart_persists_whole_record {β : Type} (c : Codec β) (ls s1 : LedgerStore β)
    (b o h id : String) (n : Int)
    (hc : PutObjectPart c ls b o h id n = (Outcome.ret none, s1)) :
    ∃ m m1 data, (getMultipartLoaded c ls id).1 = (some m, none) ∧
      m1.Id = m.Id ∧ m1.ObjectInfo = m.ObjectInfo ∧
      m1.part n = some { Number := n, DataHash := h } ∧
      (∀ k, k ≠ n → m1.part k = m.part k) ∧
      c.Marshal m1 = Except.ok data ∧
      s1.ds.data (Key.part id) = some data ∧
      (ls.MultipartUploads id = none →
        (∀ r, c.Unmarshal data = Except.ok r →
          (GetObjectDetails c s1 id).1 = (some r, some (Lock.partRead id), none)) ∧
        (∀ e, c.Unmarshal data = Except.error e →
          (GetObjectDetails c s1 id).1 = (none, none, some e))) ∧
      (ls.MultipartUploads id ≠ none →
        (GetObjectDetails c s1 id).1 = (some m1, some (Lock.partRead id), none)) ∧
      ((∀ r d, (∃ k, r.part k ≠ none) → c.Marshal r = Except.ok d →
          c.Unmarshal d = Except.ok r) →
        c.Unmarshal data = Except.ok m1 ∧
        (GetObjectDetails c s1 id).1 = (some m1, some (Lock.partRead id), none)) := by
  obtain ⟨m, parts, data, hm, hp, hM, hs1⟩ := PutObjectPart_ok c ls s1 b o h id n hc
  have hdata : s1.ds.data (Key.part id) = some data := by
    rw [hs1]
    simp
  have hpart : (m.withPart parts n h).part n = some { Number := n, DataHash := h } := by
    simp [MultipartUpload.part, MultipartUpload.withPart]
  have hmiss : ls.MultipartUploads id = none →
      (∀ r, c.Unmarshal data = Except.ok r →
        (GetObjectDetails c s1 id).1 = (some r, some (Lock.partRead id), none)) ∧
      (∀ e, c.Unmarshal data = Except.error e →
        (GetObjectDetails c s1 id).1 = (none, none, some e)) := by
    intro hres
    have hr1 : s1.MultipartUploads id = none := by
      rw [hs1]
      simp [storeThrough, hres]
    have hf : s1.ds.getFault (Key.part id) = none := by
      rw [hs1]
      exact getMultipartLoaded_found_getFault c ls id m hres hm
    have hg : s1.ds.Get (Key.part id) = Except.ok data := by
      simp [Datastore.Get, hf, hdata]
    refine ⟨?_, ?_⟩
    · intro r hU
      have hl : (getMultipartLoaded c s1 id).1 = (some r, none) := by
        simp [getMultipartLoaded, getMultipartNilable_decoded c s1 id data r hr1 hg hU]
      rw [GetObjectDetails_found c s1 id r hl]
    · intro e hU
      have hl : (getMultipartLoaded c s1 id).1 = (none, some e) := by
        simp [getMultipartLoaded, getMultipartNilable_decodeError c s1 id data e hr1 hg hU]
      rw [GetObjectDetails_error c s1 id e hl]
  have hhit : ls.MultipartUploads id ≠ none →
      (GetObjectDetails c s1 id).1
        = (some (m.withPart parts n h), some (Lock.partRead id), none) := by
    intro hres
    cases hmu : ls.MultipartUploads id with
    | none => exact absurd hmu hres
    | some mu =>
      have hr1 : s1.MultipartUploads id = some (m.withPart parts n h) := by
        rw [hs1]
        simp [storeThrough, hmu]
      have hl : (getMultipartLoaded c s1 id).1 = (some (m.withPart parts n h), none) := by
        rw [getMultipartLoaded_resident c s1 id _ hr1]
      rw [GetObjectDetails_found c s1 id _ hl]
  refine ⟨m, m.withPart parts n h, data, hm, rfl, rfl, hpart, ?_, hM, hdata, hmiss, hhit, ?_⟩
  · intro k hk
    simp [MultipartUpload.part, MultipartUpload.withPart, hp, Function.update_noteq hk]
  · intro hrt
    have hU : c.Unmarshal data = Except.ok (m.withPart parts n h) :=
      hrt _ _ ⟨n, by rw [hpart]; simp⟩ hM
    refine ⟨hU, ?_⟩
    by_cases hres : ls.MultipartUploads id = none
    · exact (hmiss hres).1 _ hU
    · exact hhit hres

/-- Part 1 of the upload `u1` of `ledgerStoredWithPart`, which is stored with its part 2
and is not resident: the call succeeds, the stored value is the encoding of the record
with parts 1 and 2, and `GetObjectDetails` answers the decoding of that stored value. -/
theorem putObjectPart_persists_whole_record_witness :
    (PutObjectPart plainCodec ledgerStoredWithPart "b1" "o1" "hashA" "u1" 1).1
      = Outcome.ret none ∧
    ∃ m m1 data, (getMultipartLoaded plainCodec ledgerStoredWithPart "u1").1 = (some m, none) ∧
      m1.part 1 = some { Number := 1, DataHash := "hashA" } ∧
      m1.part 2 = m.part 2 ∧
      plainCodec.Marshal m1 = Except.ok data ∧
      (PutObjectPart plainCodec ledgerStoredWithPart "b1" "o1" "hashA" "u1" 1).2.ds.data
        (Key.part "u1") = some data ∧
      plainCodec.Unmarshal data = Except.ok m1 ∧
      (GetObjectDetails plainCodec
        (PutObjectPart plainCodec ledgerStoredWithPart "b1" "o1" "hashA" "u1" 1).2 "u1").1
        = (some m1, some (Lock.partRead "u1"), none) :=
  ⟨by decide,
    match putObjectPart_persists_whole_record plainCodec ledgerStoredWithPart
      (PutObjectPart plainCodec ledgerStoredWithPart "b1" "o1" "hashA" "u1" 1).2
      "b1" "o1" "hashA" "u1" 1 (Prod.ext (by decide) rfl) with
    | ⟨m, m1, data, hm, _, _, h1, hrest, hM, hd, hmiss, _, _⟩ =>
      ⟨m, m1, data, hm, h1, hrest 2 (by decide), hM, hd,
        (Except.ok.inj hM) ▸ rfl, (hmiss rfl).1 m1 ((Except.ok.inj hM) ▸ rfl)⟩⟩

/-! ## Load-on-miss does not cache -/

/-- The operation `PutObjectPart` keeps the key set of the registry. -/
theorem PutObjectPart_isSome {β : Type} (c : Codec β) (ls : LedgerStore β)
    (b o h id : String) (n : Int) (k : String) :
    ((PutObjectPart c ls b o h id n).2.MultipartUploads k).isSome
      = (ls.MultipartUploads k).isSome := by
  unfold PutObjectPart
  rw [AssertBucketExits_eq]
  cases hA : assertBucketExits ls b with
  | some e => rfl
  | none =>
    simp only [getMultipartLoaded_acquire]
    rcases getMultipartLoaded_shape c ls id with ⟨m, hm⟩ | ⟨e, he⟩
    · simp only [hm]
      cases hp : m.ObjectParts with
      | none => simp
      | some parts =>
        simp only
        split <;> simp [storeThrough_acquire, storeThrough_isSome]
    · simp only [he, release_acquire]

/-- C15: `getMultipartNilable` and `MultipartIDExists` leave the state as it was,
`GetObjectDetails` leaves the upload registry as it was, and `PutObjectPart` leaves the
key set of the upload registry as it was. A record loaded from the durable store is
returned and not inserted: the id is still not resident. An id that is resident is
answered from memory: the answer is the resident record whatever the durable store is,
and the lookup makes no store call. -/
theorem lookup_does_not_cache {β : Type} (c : Codec β) (ls : LedgerStore β)
    (b o h id : String) (n : Int) :
    (getMultipartNilable c ls id).2 = ls ∧
    (MultipartIDExists c ls id).2 = ls ∧
    (GetObjectDetails c ls id).2.MultipartUploads = ls.MultipartUploads ∧
    (∀ k, ((PutObjectPart c ls b o h id n).2.MultipartUploads k).isSome
      = (ls.MultipartUploads k).isSome) ∧
    (∀ data m, ls.MultipartUploads id = none → ls.ds.Get (Key.part id) = Except.ok data →
      c.Unmarshal data = Except.ok m →
        (getMultipartNilable c ls id).1 = (some m, none) ∧
        (getMultipartNilable c ls id).2.MultipartUploads id = none) ∧
    (∀ mu, ls.MultipartUploads id = some mu →
      (∀ d : Datastore β, (getMultipartNilable c { ls with ds := d } id).1 = (some mu, none)) ∧
      hasStoreCall (getMultipartNilableEvents ls id) = false) := by
  refine ⟨getMultipartNilable_snd c ls id, ?_, ?_, PutObjectPart_isSome c ls b o h id n, ?_, ?_⟩
  · rw [MultipartIDExists_eq]
  · rcases getMultipartLoaded_shape c ls id with ⟨m, hm⟩ | ⟨e, he⟩
    · rw [GetObjectDetails_found c ls id m hm]
      rfl
    · rw [GetObjectDetails_error c ls id e he]
  · intro data m hm hg hu
    rw [getMultipartNilable_decoded c ls id data m hm hg hu]
    exact ⟨rfl, hm⟩
  · intro mu hm
    refine ⟨?_, ?_⟩
    · intro d
      rw [getMultipartNilable_resident c { ls with ds := d } id mu hm]
    · simp [getMultipartNilableEvents, hm, hasStoreCall]

/-- The stored upload `u1` of `ledgerStoredOnly` is found by the lookup and is still not
resident afterwards. -/
theorem lookup_does_not_cache_witness :
    ledgerStoredOnly.MultipartUploads "u1" = none ∧
    ((getMultipartNilable plainCodec ledgerStoredOnly "u1").1.1).map (fun m => m.Id) = some "u1" ∧
    (getMultipartNilable plainCodec ledgerStoredOnly "u1").2.MultipartUploads "u1" = none :=
  have h := (lookup_does_not_cache plainCodec ledgerStoredOnly "b1" "o1" "hashA" "u1" 1).2.2.2.2.1
    _ _ rfl rfl rfl
  ⟨rfl, by decide, h.2⟩

/-! ## Replay of buffered console logs -/

theorem clampLast_pos (last : Int) : 0 < clampLast last := by
  unfold clampLast defaultLogBufferCount
  split
  · decide
  · omega

theorem clampLast_le (last : Int) : clampLast last ≤ defaultLogBufferCount := by
  unfold clampLast defaultLogBufferCount
  split
  · exact Nat.le_refl _
  · omega

theorem accepted_nil {α : Type} (SendLog : α → String → String → Bool) (node logKind : String) :
    accepted SendLog node logKind [] = [] := rfl

theorem accepted_none_cons {α : Type} (SendLog : α → String → String → Bool)
    (node logKind : String) (ps : List (Option α)) :
    accepted SendLog node logKind (none :: ps) = accepted SendLog node logKind ps := by
  simp [accepted]

theorem accepted_some_cons {α : Type} (SendLog : α → String → String → Bool)
    (node logKind : String) (p : α) (ps : List (Option α)) :
    accepted SendLog node logKind (some p :: ps)
      = if SendLog p node logKind then p :: accepted SendLog node logKind ps
        else accepted SendLog node logKind ps := by
  by_cases h : SendLog p node logKind = true <;> simp [accepted, h]

/-- Two indices less than `last` apart do not meet modulo `last`. -/
theorem mod_ne_of_close (last t c : Nat) (h1 : t < c) (h2 : c < t + last) :
    t % last ≠ c % last := by
  intro h
  have h0 : (c - t) % last = 0 := Nat.sub_mod_eq_zero_of_mod_eq h.symm
  have hd : last ∣ c - t := Nat.dvd_of_mod_eq_zero h0
  have hle : last ≤ c - t := Nat.le_of_dvd (by omega) hd
  omega

theorem window_init {α : Type} (zero : α) (last : Nat) :
    Window zero last [] (List.replicate last zero) := by
  refine ⟨by simp, ?_, ?_⟩
  · intro t ht
    simp at ht
  · intro j _ hj
    simp [hj]

theorem window_step {α : Type} (zero : α) (last : Nat) (a l : List α) (p : α)
    (hL : 0 < last) (hw : Window zero last a l) :
    Window zero last (a ++ [p]) (l.set (a.length % last) p) := by
  obtain ⟨hlen, hold, hzero⟩ := hw
  have hidx : a.length % last < l.length := by
    rw [hlen]
    exact Nat.mod_lt _ hL
  refine ⟨by simp [hlen], ?_, ?_⟩
  · intro t ht hclose
    simp only [List.length_append, List.length_singleton] at ht hclose
    by_cases htc : t = a.length
    · subst htc
      rw [List.getElem?_set_self hidx, List.getElem?_concat_length]
    · have hlt : t < a.length := by omega
      have hne : a.length % last ≠ t % last :=
        (mod_ne_of_close last t a.length hlt (by omega)).symm
      rw [List.getElem?_set_ne hne, List.getElem?_append_left hlt]
      exact hold t hlt (by omega)
  · intro j hj hjL
    simp only [List.length_append, List.length_singleton] at hj
    have hmod : a.length % last = a.length := Nat.mod_eq_of_lt (by omega)
    have hne : a.length % last ≠ j := by omega
    rw [List.getElem?_set_ne hne]
    exact hzero j (by omega) hjL

/-- The pass over the ring writes the accepted entries round-robin and counts them,
without an index out of range. -/
theorem collect_spec {α : Type} (SendLog : α → String → String → Bool) (node logKind : String)
    (zero : α) (last : Nat) (hL : 0 < last) (ps : List (Option α)) :
    ∀ (a l : List α), Window zero last a l →
      ∃ l1, collect SendLog node logKind last ps (l, a.length)
          = some (l1, (a ++ accepted SendLog node logKind ps).length) ∧
        Window zero last (a ++ accepted SendLog node logKind ps) l1 := by
  induction ps with
  | nil =>
    intro a l hw
    exact ⟨l, by simp [collect, accepted_nil], by simpa [accepted_nil] using hw⟩
  | cons q ps ih =>
    intro a l hw
    cases q with
    | none =>
      rw [accepted_none_cons]
      exact ih a l hw
    | some p =>
      rw [accepted_some_cons]
      by_cases hs : SendLog p node logKind = true
      · have hidx : a.length % last < l.length := by
          rw [hw.1]
          exact Nat.mod_lt _ hL
        obtain ⟨l1, h1, h2⟩ := ih (a ++ [p]) (l.set (a.length % last) p)
          (window_step zero last a l p hL hw)
        refine ⟨l1, ?_, ?_⟩
        · simp only [collect, hs, if_true, setIndex, hidx]
          simpa using h1
        · simpa [hs] using h2
      · obtain ⟨l1, h1, h2⟩ := ih a l hw
        refine ⟨l1, ?_, ?_⟩
        · simpa [collect, hs] using h1
        · simpa [hs] using h2

/-- Reading the replay array from index `cnt` on, round-robin, gives the zero slots
first and then the final `last` accepted entries in order. -/
theorem window_read {α : Type} (zero : α) (last : Nat) (a l : List α) (hL : 0 < last)
    (hw : Window zero last a l) (i : Nat) (hi : i < last) :
    l[(a.length + i) % last]?
      = (List.replicate (last - a.length) zero ++ a.drop (a.length - last))[i]? := by
  obtain ⟨hlen, hold, hzero⟩ := hw
  by_cases hc : a.length + i < last
  · rw [Nat.mod_eq_of_lt hc, hzero _ (by omega) hc,
      List.getElem?_append_left (by simp; omega), List.getElem?_replicate_of_lt (by omega)]
  · have hsplit : a.length + i = (a.length + i - last) + last := by omega
    have hmod : (a.length + i) % last = (a.length + i - last) % last := by
      conv_lhs => rw [hsplit]
      exact Nat.add_mod_right _ _
    rw [hmod, hold (a.length + i - last) (by omega) (by omega),
      List.getElem?_append_right (by simp; omega), List.getElem?_drop]
    congr 1
    simp
    omega

/-- The send loop reads the list `w` in order and skips the zero values. -/
theorem sendLoop_spec {α : Type} [DecidableEq α] (zero : α) (last cnt : Nat) (l w : List α)
    (hwlen : w.length = last)
    (hread : ∀ i, i < last → l[(cnt + i) % last]? = w[i]?) :
    ∀ k i, i + k = last →
      sendLoop zero l cnt last i k = some ((w.drop i).filter (fun e => decide (e ≠ zero))) := by
  intro k
  induction k with
  | zero =>
    intro i hi
    have : w.drop i = [] := List.drop_eq_nil_of_le (by omega)
    simp [sendLoop, this]
  | succ k ih =>
    intro i hi
    have hiw : i < w.length := by omega
    have hr := hread i (by omega)
    rw [List.getElem?_eq_getElem hiw] at hr
    rw [List.drop_eq_getElem_cons hiw]
    simp only [sendLoop, hr, ih (i + 1) (by omega)]
    by_cases hz : w[i] = zero
    · simp [hz, List.filter_cons, -List.getElem_cons_drop]
    · simp [hz, List.filter_cons, -List.getElem_cons_drop]

/-- After the entries `es` have been put into a fresh ring of `n` slots, the ring seen
from the cursor is the last `n` slots of the empty slots followed by `es`. -/
theorem ringPut_foldl {α : Type} (n : Nat) (es : List α) :
    es.foldl ringPut (ringNew n) = (List.replicate n none ++ es.map some).drop es.length := by
  induction es using List.reverseRecOn with
  | nil => simp [ringNew]
  | append_singleton l a ih =>
    rw [List.foldl_append, ih]
    simp only [List.foldl_cons, List.foldl_nil, List.map_append, List.map_cons, List.map_nil,
      List.length_append, List.length_singleton, ← List.append_assoc]
    have hXlen : (List.replicate n (none : Option α) ++ List.map some l).length
        = n + l.length := by simp
    generalize List.replicate n (none : Option α) ++ List.map some l = X at hXlen ⊢
    by_cases hn : n = 0
    · have h1 : X.drop l.length = [] := List.drop_eq_nil_of_le (by omega)
      have h2 : (X ++ [some a]).drop (l.length + 1) = [] :=
        List.drop_eq_nil_of_le (by simp; omega)
      rw [h1, h2]
      rfl
    · have hlen : l.length < X.length := by omega
      rw [List.drop_eq_getElem_cons hlen, List.drop_append_of_le_length (by omega)]
      rfl

/-- The accepted entries of a ring that holds empty slots followed by the entries `xs`. -/
theorem accepted_ring {α : Type} (SendLog : α → String → String → Bool) (node logKind : String)
    (k : Nat) (xs : List α) :
    accepted SendLog node logKind (List.replicate k none ++ xs.map some)
      = xs.filter (fun p => SendLog p node logKind) := by
  have h1 : (List.replicate k (none : Option α)).filterMap id = [] := by
    induction k with
    | zero => rfl
    | succ k ih => simp [List.replicate_succ, ih]
  have h2 : (xs.map some).filterMap id = xs := by
    induction xs with
    | nil => rfl
    | cons x xs ih => simp [ih]
  simp [accepted, List.filterMap_append, h1, h2]

/-- C16: for every ring content, node, log kind and requested count `last`, with
`m1 .. mk` the buffered entries that `SendLog(node, logKind)` accepts in the order of
the ring, the replay of `Subscribe` sends, with no index out of range, exactly the final
`min(k, last)` of them in that order, less the entries equal to the zero value, where a
`last` that is `<= 0` or `> 10000` counts as `10000`. The order of the ring is the order
of sending: after the entries `es` were put into a fresh ring of `n` slots, the accepted
entries are the accepted ones among the last `n` of `es`, oldest first. -/
theorem subscribe_replays_last_accepted {α : Type} [DecidableEq α]
    (SendLog : α → String → String → Bool) (zero : α) (logBuf : List (Option α))
    (node : String) (last : Int) (logKind : String) :
    Subscribe SendLog zero logBuf node last logKind
      = some (((accepted SendLog node logKind logBuf).drop
          ((accepted SendLog node logKind logBuf).length - clampLast last)).filter
            (fun e => decide (e ≠ zero))) ∧
    ((accepted SendLog node logKind logBuf).drop
        ((accepted SendLog node logKind logBuf).length - clampLast last)).length
      = min (accepted SendLog node logKind logBuf).length (clampLast last) ∧
    (last ≤ 0 ∨ last > 10000 → clampLast last = 10000) ∧
    (0 < last → last ≤ 10000 → (clampLast last : Int) = last) ∧
    (∀ (n : Nat) (es : List α),
      accepted SendLog node logKind (es.foldl ringPut (ringNew n))
        = (es.drop (es.length - n)).filter (fun p => SendLog p node logKind)) := by
  refine ⟨?_, ?_, ?_, ?_, ?_⟩
  · have hL := clampLast_pos last
    obtain ⟨l1, hcol, hwin⟩ := collect_spec SendLog node logKind zero (clampLast last) hL
      logBuf [] (List.replicate (clampLast last) zero) (window_init zero (clampLast last))
    simp only [List.nil_append, List.length_nil] at hcol hwin
    unfold Subscribe
    simp only [hcol]
    by_cases hcnt : (accepted SendLog node logKind logBuf).length > 0
    · simp only [hcnt, if_true]
      have hread := window_read zero (clampLast last) _ l1 hL hwin
      rw [sendLoop_spec zero (clampLast last) _ l1 _ (by simp; omega) hread
        (clampLast last) 0 (by omega)]
      simp [List.filter_append]
    · have hnil : accepted SendLog node logKind logBuf = [] := by
        cases hacc : accepted SendLog node logKind logBuf with
        | nil => rfl
        | cons x xs => simp [hacc] at hcnt
      simp [hnil]
  · simp
    omega
  · intro h
    unfold clampLast defaultLogBufferCount
    rw [if_pos]
    rcases h with h | h
    · exact Or.inr h
    · exact Or.inl (by simpa using h)
  · intro h1 h2
    unfold clampLast defaultLogBufferCount
    rw [if_neg (by push_cast; omega)]
    omega
  · intro n es
    rw [ringPut_foldl]
    by_cases hle : es.length ≤ n
    · have hd : (List.replicate n (none : Option α) ++ es.map some).drop es.length
          = List.replicate (n - es.length) none ++ es.map some := by
        rw [List.drop_append_of_le_length (by simpa using hle)]
        simp
      rw [hd, accepted_ring]
      have h0 : es.length - n = 0 := by omega
      simp [h0]
    · have hd : (List.replicate n (none : Option α) ++ es.map some).drop es.length
          = List.replicate 0 none ++ (es.drop (es.length - n)).map some := by
        have hsplit : es.length = (List.replicate n (none : Option α)).length + (es.length - n) := by
          simp
          omega
        conv_lhs => rw [hsplit]
        rw [List.drop_append]
        simp [List.map_drop]
      rw [hd, accepted_ring]

/-- A ring with an empty slot and the entries 1, 2, 3, 5, 7, of which the odd ones are
accepted, replayed with `last = 2` and zero value 0: the entries 5 and 7 are sent. -/
theorem subscribe_replays_last_accepted_witness :
    Subscribe (fun (p : Nat) _ _ => p % 2 == 1) 0
      [none, some 1, some 2, some 3, some 5, some 7] "" 2 "all" = some [5, 7] :=
  (subscribe_replays_last_accepted (fun (p : Nat) _ _ => p % 2 == 1) 0
    [none, some 1, some 2, some 3, some 5, some 7] "" 2 "all").1.trans (by decide)

/-! ## Object removal on a concrete ledger -/

/-- Removing `o1` from bucket `b1` of `ledgerWithObject`: the call succeeds, `o1` is gone
from the object map in memory and the other names are as they were. -/
theorem removeObject_removes_one_witness :
    (RemoveObject ledgerWithObject "b1" "o1").1 = none ∧
    ∃ b b1 r, ledgerWithObject.Buckets "b1" = some b ∧
      b.ensureCache ledgerWithObject.dag = Except.ok b1 ∧
      (RemoveObject ledgerWithObject "b1" "o1").2.Buckets "b1" = some { b1 with Bucket := r } ∧
      r.object "o1" = none ∧ (∀ o, o ≠ "o1" → r.object o = b1.Bucket.object o) :=
  ⟨by decide,
    (removeObject_removes_one ledgerWithObject "b1" "o1").1
      (RemoveObject ledgerWithObject "b1" "o1").2 (Prod.ext (by decide) rfl)⟩

/-- Removing `o1` from bucket `b1` of `ledgerWithObject`: the persisted record of `b1`
still maps `o1` to `hashA`, the object map in memory does not. -/
theorem removeObject_is_memory_only_witness :
    (RemoveObject ledgerWithObject "b1" "o1").1 = none ∧
    ((RemoveObject ledgerWithObject "b1" "o1").2.dag.saved "b1").bind
      (fun r => r.object "o1") = some "hashA" ∧
    ((RemoveObject ledgerWithObject "b1" "o1").2.Buckets "b1").bind
      (fun b => b.Bucket.object "o1") = none :=
  have h := (removeObject_is_memory_only ledgerWithObject "b1" "o1" "hashA").2.2.1
    { Name := "b1", Objects := some (fun o => if o = "o1" then some "hashA" else none) }
    "hashA" rfl rfl (by decide)
  ⟨by decide, by decide, h.2⟩

end S3x
